import Mathlib

/-!
Shallow embedding of the state-trie-migration pallet
(`substrate/frame/state-trie-migration/src/lib.rs`) and proofs about its
migration engine.

The key-value store collaborator (`sp_io::storage` / `default_child_storage`)
is modelled from the spec as finite association lists with ordered
`next_key` iteration.  `u32` counters are modelled as `Nat` with explicit
saturating arithmetic at `2^32 - 1`; the balance type as `Nat` with
saturating arithmetic at `2^128 - 1`.
-/

namespace StateTrieMigration

/-- A byte string; each entry stands for one byte. -/
abbrev Bytes := List Nat

def U32MAX : Nat := 2 ^ 32 - 1

def U128MAX : Nat := 2 ^ 128 - 1

/-- `u32::saturating_add`. -/
def satAdd (a b : Nat) : Nat := min (a + b) U32MAX

/-- Balance (`u128`) `saturating_add`. -/
def satAdd128 (a b : Nat) : Nat := min (a + b) U128MAX

/-- Balance (`u128`) `saturating_mul`. -/
def satMul128 (a b : Nat) : Nat := min (a * b) U128MAX

/-- Strict lexicographic byte-string order (the order of trie key iteration). -/
def bytesLt : Bytes → Bytes → Bool
  | _, [] => false
  | [], _ :: _ => true
  | a :: as, b :: bs => if a < b then true else if b < a then false else bytesLt as bs

/-- First-match lookup in an association list keyed by byte strings. -/
def lookupKV {α : Type} : List (Bytes × α) → Bytes → Option α
  | [], _ => none
  | (k', v') :: rest, k => if k' = k then some v' else lookupKV rest k

/-- Replace the first binding of `k` (or append a new one). -/
def setKV {α : Type} : List (Bytes × α) → Bytes → α → List (Bytes × α)
  | [], k, v => [(k, v)]
  | (k', v') :: rest, k, v => if k' = k then (k, v) :: rest else (k', v') :: setKV rest k v

def nextKeyStep (after : Bytes) : Option Bytes → Bytes → Option Bytes
  | none, k => if bytesLt after k then some k else none
  | some b, k =>
    if bytesLt after k then (if bytesLt k b then some k else some b) else some b

/-- Modelled from the spec: the ordered key-value store collaborator exposes
`next_key(after)`, the lexicographically smallest stored key strictly after
`after` (or `none`). -/
def nextKeyIn (keys : List Bytes) (after : Bytes) : Option Bytes :=
  keys.foldl (nextKeyStep after) none

/-- Modelled from the spec: the persistent key-value store, with a default
top namespace and isolated child namespaces addressed by a child root. -/
structure Store where
  top : List (Bytes × Bytes)
  child : List (Bytes × List (Bytes × Bytes))
deriving DecidableEq

def Store.topKeys (s : Store) : List Bytes := s.top.map Prod.fst

def Store.get (s : Store) (k : Bytes) : Option Bytes := lookupKV s.top k

def Store.set (s : Store) (k v : Bytes) : Store := { s with top := setKV s.top k v }

def Store.nextKey (s : Store) (after : Bytes) : Option Bytes := nextKeyIn s.topKeys after

def childKeysOf (s : Store) (root : Bytes) : List Bytes :=
  ((lookupKV s.child root).getD []).map Prod.fst

def Store.childGet (s : Store) (root k : Bytes) : Option Bytes :=
  lookupKV ((lookupKV s.child root).getD []) k

def Store.childSet (s : Store) (root k v : Bytes) : Store :=
  { s with child := setKV s.child root (setKV ((lookupKV s.child root).getD []) k v) }

def Store.childNextKey (s : Store) (root after : Bytes) : Option Bytes :=
  nextKeyIn (childKeysOf s root) after

/-- `Progress<MaxKeyLen>`: the per-namespace cursor.  The `MaxKeyLen` bound of
the `BoundedVec` inside `LastKey` is enforced where the source enforces it
(the `try_into` in `migrate_top` / `migrate_child`). -/
inductive Progress where
  | toStart
  | lastKey (key : Bytes)
  | complete
deriving DecidableEq

/-- `MigrationTask`: the durable cursor pair plus dynamic (`#[codec(skip)]`)
and cumulative counters. -/
structure MigrationTask where
  progress_top : Progress := Progress.toStart
  progress_child : Progress := Progress.toStart
  dyn_top_items : Nat := 0
  dyn_child_items : Nat := 0
  dyn_size : Nat := 0
  size : Nat := 0
  top_items : Nat := 0
  child_items : Nat := 0
deriving DecidableEq

structure MigrationLimits where
  size : Nat
  item : Nat
deriving DecidableEq

/-- `Error<T>` of the pallet. -/
inductive MigError where
  | maxSignedLimits
  | keyTooLong
  | notEnoughFunds
  | badWitness
  | signedMigrationNotAllowed
  | badChildRoot
deriving DecidableEq

/-- The pallet's configuration constants used by the claims. -/
structure Config where
  maxKeyLen : Nat
  signedDepositBase : Nat
  signedDepositPerItem : Nat

/-- `sp_core::storage::well_known_keys::DEFAULT_CHILD_STORAGE_KEY_PREFIX`
(`b":child_storage:default:"`), the reserved marker of child-root top keys. -/
def childStorageMarker : Bytes := ":child_storage:default:".data.map Char.toNat

/-- `Pallet::transform_child_key`: `ChildType::from_prefixed_key` strips the
default child-storage marker, or fails. -/
def transform_child_key (root : Bytes) : Option Bytes :=
  if childStorageMarker.isPrefixOf root then some (root.drop childStorageMarker.length)
  else none

/-- `Pallet::transform_child_key_or_halt`.  In the source a failing transform
additionally halts the pallet (`BadChildRoot`); that side effect touches only
`AutoLimits` and the event list, never the task or the store, and cannot fire
in the states the claims range over (the tick dispatcher only enters a child
walk at a marker-prefixed top key).  The value returned to the caller is
`key.unwrap_or_default()`. -/
def transform_child_key_or_halt (root : Bytes) : Bytes :=
  (transform_child_key root).getD []

/-- `MigrationTask::finished`. -/
def MigrationTask.finished (t : MigrationTask) : Bool :=
  decide (t.progress_top = Progress.complete)

/-- `MigrationTask::dyn_total_items`. -/
def MigrationTask.dyn_total_items (t : MigrationTask) : Nat :=
  satAdd t.dyn_child_items t.dyn_top_items

/-- `MigrationTask::exhausted`. -/
def MigrationTask.exhausted (t : MigrationTask) (limits : MigrationLimits) : Bool :=
  decide (limits.item ≤ t.dyn_total_items) || decide (limits.size ≤ t.dyn_size)

/-- The shared tail of `MigrationTask::migrate_top` (lines 391-407): read and
rewrite the found key, bump the dynamic counters, move the cursor. -/
def processTopKey (t : MigrationTask) (s : Store) (maybe_current_top : Option Bytes) :
    MigrationTask × Store :=
  match maybe_current_top with
  | some current_top =>
    match s.get current_top with
    | some data =>
      ({ t with dyn_size := satAdd t.dyn_size data.length,
                dyn_top_items := satAdd t.dyn_top_items 1,
                progress_top := Progress.lastKey current_top }, s.set current_top data)
    | none =>
      ({ t with dyn_size := satAdd t.dyn_size 0,
                dyn_top_items := satAdd t.dyn_top_items 1,
                progress_top := Progress.lastKey current_top }, s)
  | none => ({ t with progress_top := Progress.complete }, s)

/-- `MigrationTask::migrate_top`. -/
def migrate_top (cfg : Config) (t : MigrationTask) (s : Store) :
    Except MigError (MigrationTask × Store) :=
  match t.progress_top with
  | Progress.lastKey last_top =>
    match s.nextKey last_top with
    | some next =>
      if cfg.maxKeyLen < next.length then Except.error MigError.keyTooLong
      else Except.ok (processTopKey t s (some next))
    | none => Except.ok (processTopKey t s none)
  | Progress.toStart => Except.ok (processTopKey t s (some []))
  | Progress.complete => Except.ok (t, s)

/-- The shared tail of `MigrationTask::migrate_child` (lines 349-365). -/
def processChildKey (t : MigrationTask) (s : Store) (child_root : Bytes)
    (maybe_current_child : Option Bytes) : MigrationTask × Store :=
  match maybe_current_child with
  | some current_child =>
    match s.childGet child_root current_child with
    | some data =>
      ({ t with dyn_size := satAdd t.dyn_size data.length,
                dyn_child_items := satAdd t.dyn_child_items 1,
                progress_child := Progress.lastKey current_child },
       s.childSet child_root current_child data)
    | none =>
      ({ t with dyn_size := satAdd t.dyn_size 0,
                dyn_child_items := satAdd t.dyn_child_items 1,
                progress_child := Progress.lastKey current_child }, s)
  | none => ({ t with progress_child := Progress.complete }, s)

/-- `MigrationTask::migrate_child`. -/
def migrate_child (cfg : Config) (t : MigrationTask) (s : Store) :
    Except MigError (MigrationTask × Store) :=
  match t.progress_child, t.progress_top with
  | Progress.lastKey last_child, Progress.lastKey last_top =>
    match s.childNextKey (transform_child_key_or_halt last_top) last_child with
    | some next =>
      if cfg.maxKeyLen < next.length then Except.error MigError.keyTooLong
      else Except.ok (processChildKey t s (transform_child_key_or_halt last_top) (some next))
    | none => Except.ok (processChildKey t s (transform_child_key_or_halt last_top) none)
  | Progress.toStart, Progress.lastKey last_top =>
    Except.ok (processChildKey t s (transform_child_key_or_halt last_top) (some []))
  | _, _ => Except.ok (t, s)

/-- `MigrationTask::migrate_tick`: migrate AT MOST ONE KEY, dispatching on the
cursor pair exactly as the source `match`. -/
def migrate_tick (cfg : Config) (t : MigrationTask) (s : Store) :
    Except MigError (MigrationTask × Store) :=
  match t.progress_top, t.progress_child with
  | Progress.toStart, _ => migrate_top cfg t s
  | Progress.lastKey _, Progress.lastKey _ => migrate_child cfg t s
  | Progress.lastKey top_key, Progress.toStart =>
    if !(childStorageMarker.isPrefixOf top_key) then migrate_top cfg t s
    else migrate_child cfg t s
  | Progress.lastKey _, Progress.complete =>
    match migrate_top cfg t s with
    | Except.error e => Except.error e
    | Except.ok (t', s') => Except.ok ({ t' with progress_child := Progress.toStart }, s')
  | Progress.complete, _ => Except.ok (t, s)

/-! ### Facts about the byte-string order and `next_key` -/

theorem bytesLt_irrefl (a : Bytes) : bytesLt a a = false := by
  induction a with
  | nil => rfl
  | cons x xs ih => simp [bytesLt, ih]

theorem bytesLt_cons (x y : Nat) (xs ys : Bytes) :
    bytesLt (x :: xs) (y :: ys) =
      if x < y then true else if y < x then false else bytesLt xs ys := rfl

theorem bytesLt_trans {a b c : Bytes} (h1 : bytesLt a b = true) (h2 : bytesLt b c = true) :
    bytesLt a c = true := by
  induction c generalizing a b with
  | nil => cases b <;> simp [bytesLt] at h2
  | cons z zs ihc =>
    cases a with
    | nil => rfl
    | cons x xs =>
      cases b with
      | nil => simp [bytesLt] at h1
      | cons y ys =>
        rw [bytesLt_cons] at h1 h2 ⊢
        rcases Nat.lt_trichotomy x y with hxy | hxy | hxy
        · rcases Nat.lt_trichotomy y z with hyz | hyz | hyz
          · rw [if_pos (Nat.lt_trans hxy hyz)]
          · subst hyz; rw [if_pos hxy]
          · rw [if_neg (Nat.lt_asymm hyz), if_pos hyz] at h2; cases h2
        · subst hxy
          rw [if_neg (Nat.lt_irrefl x), if_neg (Nat.lt_irrefl x)] at h1
          rcases Nat.lt_trichotomy x z with hxz | hxz | hxz
          · rw [if_pos hxz]
          · subst hxz
            rw [if_neg (Nat.lt_irrefl x), if_neg (Nat.lt_irrefl x)] at h2 ⊢
            exact ihc h1 h2
          · rw [if_neg (Nat.lt_asymm hxz), if_pos hxz] at h2; cases h2
        · rw [if_neg (Nat.lt_asymm hxy), if_pos hxy] at h1; cases h1

theorem nextKeyStep_some {after : Bytes} {acc : Option Bytes} {k b : Bytes}
    (hacc : ∀ c, acc = some c → bytesLt after c = true)
    (h : nextKeyStep after acc k = some b) :
    bytesLt after b = true ∧ (b = k ∨ acc = some b) := by
  cases acc with
  | none =>
    simp only [nextKeyStep] at h
    by_cases h1 : bytesLt after k = true
    · rw [if_pos h1] at h
      cases h
      exact ⟨h1, Or.inl rfl⟩
    · rw [if_neg h1] at h
      cases h
  | some c =>
    simp only [nextKeyStep] at h
    by_cases h1 : bytesLt after k = true
    · rw [if_pos h1] at h
      by_cases h2 : bytesLt k c = true
      · rw [if_pos h2] at h; cases h; exact ⟨h1, Or.inl rfl⟩
      · rw [if_neg h2] at h; cases h; exact ⟨hacc b rfl, Or.inr rfl⟩
    · rw [if_neg h1] at h
      cases h
      exact ⟨hacc b rfl, Or.inr rfl⟩

theorem foldl_nextKeyStep_some {after : Bytes} :
    ∀ (keys : List Bytes) (acc : Option Bytes) (k' : Bytes),
      List.foldl (nextKeyStep after) acc keys = some k' →
      (∀ c, acc = some c → bytesLt after c = true) →
      bytesLt after k' = true ∧ (k' ∈ keys ∨ acc = some k')
  | [], acc, k', h, hacc => by
    simp only [List.foldl] at h
    exact ⟨hacc k' h, Or.inr h⟩
  | k :: keys, acc, k', h, hacc => by
    simp only [List.foldl] at h
    have hacc' : ∀ c, nextKeyStep after acc k = some c → bytesLt after c = true :=
      fun c hc => (nextKeyStep_some hacc hc).1
    obtain ⟨hlt, hmem⟩ := foldl_nextKeyStep_some keys _ k' h hacc'
    refine ⟨hlt, ?_⟩
    rcases hmem with hmem | hacc2
    · exact Or.inl (List.mem_cons_of_mem _ hmem)
    · rcases (nextKeyStep_some hacc hacc2).2 with he | ha
      · exact Or.inl (he ▸ List.mem_cons_self _ _)
      · exact Or.inr ha

theorem nextKeyIn_some {keys : List Bytes} {after k' : Bytes}
    (h : nextKeyIn keys after = some k') :
    bytesLt after k' = true ∧ k' ∈ keys := by
  obtain ⟨hlt, hmem⟩ := foldl_nextKeyStep_some keys none k' h (by intro c hc; cases hc)
  refine ⟨hlt, ?_⟩
  rcases hmem with hmem | hacc
  · exact hmem
  · cases hacc

theorem foldl_nextKeyStep_from_some (after b : Bytes) :
    ∀ (keys : List Bytes), ∃ c, List.foldl (nextKeyStep after) (some b) keys = some c := by
  intro keys
  induction keys generalizing b with
  | nil => exact ⟨b, rfl⟩
  | cons k keys ih =>
    simp only [List.foldl, nextKeyStep]
    by_cases h1 : bytesLt after k = true
    · rw [if_pos h1]
      by_cases h2 : bytesLt k b = true
      · rw [if_pos h2]; exact ih k
      · rw [if_neg h2]; exact ih b
    · rw [if_neg h1]; exact ih b

theorem nextKeyIn_none {keys : List Bytes} {after : Bytes}
    (h : nextKeyIn keys after = none) :
    ∀ k ∈ keys, bytesLt after k = false := by
  unfold nextKeyIn at h
  induction keys with
  | nil => intro k hk; cases hk
  | cons k keys ih =>
    by_cases h1 : bytesLt after k = true
    · exfalso
      simp only [List.foldl, nextKeyStep, if_pos h1] at h
      obtain ⟨c, hc⟩ := foldl_nextKeyStep_from_some after k keys
      rw [hc] at h
      cases h
    · intro x hx
      rcases List.mem_cons.mp hx with he | hm
      · subst he; exact Bool.eq_false_iff.mpr h1
      · have h' : List.foldl (nextKeyStep after) none keys = none := by
          simp only [List.foldl, nextKeyStep, if_neg h1] at h
          exact h
        exact ih h' x hm

/-! ### Counting keys beyond a cursor -/

theorem countP_lt_of_witness {l : List Bytes} {p q : Bytes → Bool} {x : Bytes}
    (hmono : ∀ y ∈ l, p y = true → q y = true) (hx : x ∈ l) (hq : q x = true)
    (hp : p x = false) : l.countP p < l.countP q := by
  induction l with
  | nil => cases hx
  | cons a l ih =>
    have hmono' : ∀ y ∈ l, p y = true → q y = true :=
      fun y hy => hmono y (List.mem_cons_of_mem _ hy)
    have hle : l.countP p ≤ l.countP q := by
      apply List.countP_mono_left
      intro y hy
      exact hmono' y hy
    rcases List.mem_cons.mp hx with he | hm
    · subst he
      simp [List.countP_cons, hp, hq]
      omega
    · have := ih hmono' hm
      simp only [List.countP_cons]
      by_cases hpa : p a = true
      · have hqa : q a = true := hmono a (List.mem_cons_self _ _) hpa
        simp [hpa, hqa]; omega
      · simp only [Bool.not_eq_true] at hpa
        simp only [hpa]
        by_cases hqa : q a = true <;> simp [hqa] <;> omega

theorem countGreater_lt {keys : List Bytes} {after k' : Bytes}
    (hmem : k' ∈ keys) (hlt : bytesLt after k' = true) :
    keys.countP (fun x => bytesLt k' x) < keys.countP (fun x => bytesLt after x) :=
  countP_lt_of_witness (fun y _ hy => bytesLt_trans hlt hy) hmem hlt (bytesLt_irrefl k')

theorem countGreater_eq_zero {keys : List Bytes} {after : Bytes}
    (h : nextKeyIn keys after = none) :
    keys.countP (fun x => bytesLt after x) = 0 := by
  rw [List.countP_eq_zero]
  intro a ha
  simp [nextKeyIn_none h a ha]

/-! ### Association-list bookkeeping -/

theorem lookupKV_mem {α : Type} :
    ∀ {m : List (Bytes × α)} {k : Bytes} {v : α}, lookupKV m k = some v → (k, v) ∈ m
  | [], _, _, h => by cases h
  | (k', v') :: rest, k, v, h => by
    by_cases hk : k' = k
    · subst hk
      simp [lookupKV] at h
      subst h
      exact List.mem_cons_self _ _
    · simp [lookupKV, hk] at h
      exact List.mem_cons_of_mem _ (lookupKV_mem h)

theorem setKV_keys {α : Type} :
    ∀ {m : List (Bytes × α)} {k : Bytes} {v : α} (w : α), lookupKV m k = some v →
      (setKV m k w).map Prod.fst = m.map Prod.fst
  | [], _, _, _, h => by cases h
  | (k', v') :: rest, k, v, w, h => by
    by_cases hk : k' = k
    · subst hk
      simp [setKV, lookupKV]
    · simp only [lookupKV, if_neg hk] at h
      simp [setKV, hk, setKV_keys w h]

theorem setKV_length {α : Type} {m : List (Bytes × α)} {k : Bytes} {v : α} (w : α)
    (h : lookupKV m k = some v) : (setKV m k w).length = m.length := by
  have := setKV_keys w h
  have h1 : ((setKV m k w).map Prod.fst).length = (m.map Prod.fst).length := by rw [this]
  simpa using h1

theorem lookupKV_setKV_self {α : Type} :
    ∀ (m : List (Bytes × α)) (k : Bytes) (v : α), lookupKV (setKV m k v) k = some v
  | [], k, v => by simp [setKV, lookupKV]
  | (k', v') :: rest, k, v => by
    by_cases hk : k' = k
    · subst hk; simp [setKV, lookupKV]
    · simp [setKV, lookupKV, hk, lookupKV_setKV_self rest k v]

theorem lookupKV_setKV_ne {α : Type} :
    ∀ (m : List (Bytes × α)) (k k' : Bytes) (v : α), k ≠ k' →
      lookupKV (setKV m k v) k' = lookupKV m k'
  | [], k, k', v, hne => by simp [setKV, lookupKV, hne]
  | (k0, v0) :: rest, k, k', v, hne => by
    by_cases hk : k0 = k
    · subst hk
      simp [setKV, lookupKV, hne]
    · simp [setKV, lookupKV, hk, lookupKV_setKV_ne rest k k' v hne]

theorem mem_le_sum : ∀ {l : List Nat} {x : Nat}, x ∈ l → x ≤ l.sum
  | [], _, h => by cases h
  | a :: l, x, h => by
    rcases List.mem_cons.mp h with he | hm
    · subst he; simp
    · have := mem_le_sum hm
      simp
      omega

/-! ### Store bookkeeping under the rewriting performed by a tick -/

theorem set_child_eq (s : Store) (k v : Bytes) : (s.set k v).child = s.child := rfl

theorem set_topKeys_eq {s : Store} {k v : Bytes} (w : Bytes) (h : s.get k = some v) :
    (s.set k w).topKeys = s.topKeys :=
  setKV_keys w h

theorem childSet_top_eq (s : Store) (r k v : Bytes) : (s.childSet r k v).top = s.top := rfl

theorem childGet_root_present {s : Store} {r k v : Bytes} (h : s.childGet r k = some v) :
    ∃ l, lookupKV s.child r = some l ∧ lookupKV l k = some v := by
  unfold Store.childGet at h
  cases hl : lookupKV s.child r with
  | none => rw [hl] at h; simp [lookupKV] at h
  | some l => rw [hl] at h; exact ⟨l, rfl, h⟩

theorem childKeysOf_childSet {s : Store} {r k v : Bytes} (w : Bytes)
    (h : s.childGet r k = some v) (r' : Bytes) :
    childKeysOf (s.childSet r k w) r' = childKeysOf s r' := by
  obtain ⟨l, hl, hk⟩ := childGet_root_present h
  unfold childKeysOf Store.childSet
  by_cases hr : r = r'
  · subst hr
    simp only [lookupKV_setKV_self, hl, Option.getD_some]
    exact setKV_keys w hk
  · simp only [lookupKV_setKV_ne s.child r r' _ hr]

theorem setKV_sizes :
    ∀ (m : List (Bytes × List (Bytes × Bytes))) (r : Bytes)
      (oldl newl : List (Bytes × Bytes)),
      lookupKV m r = some oldl → newl.length = oldl.length →
      ((setKV m r newl).map (fun rc => rc.2.length)).sum =
        (m.map (fun rc => rc.2.length)).sum
  | [], _, _, _, h, _ => by cases h
  | (r0, l0) :: rest, r, oldl, newl, h, hlen => by
    by_cases hr : r0 = r
    · subst hr
      simp only [lookupKV, if_pos rfl] at h
      have h' : l0 = oldl := by simpa using h
      subst h'
      simp [setKV, hlen]
    · simp only [lookupKV, if_neg hr] at h
      simp [setKV, hr, setKV_sizes rest r oldl newl h hlen]

theorem storeChildBound_aux {s : Store} {r k v : Bytes} (w : Bytes)
    (h : s.childGet r k = some v) :
    ((s.childSet r k w).child.map (fun rc => rc.2.length)).sum =
      (s.child.map (fun rc => rc.2.length)).sum := by
  obtain ⟨l, hl, hk⟩ := childGet_root_present h
  unfold Store.childSet
  simp only [hl, Option.getD_some]
  exact setKV_sizes s.child r l (setKV l k w) hl (setKV_length w hk)

/-! ### The termination measure of the exhaustion loop -/

/-- Keys of a namespace still strictly beyond a cursor (plus one for a walk
not yet begun): migrating a key strictly shrinks this. -/
def remainingIn (keys : List Bytes) : Progress → Nat
  | Progress.toStart => keys.length + 1
  | Progress.lastKey k => keys.countP (fun x => bytesLt k x)
  | Progress.complete => 0

def childRemainingAux (s : Store) : Progress → Progress → Nat
  | Progress.lastKey k, pc => remainingIn (childKeysOf s (transform_child_key_or_halt k)) pc
  | Progress.toStart, _ => 0
  | Progress.complete, _ => 0

def childRemaining (s : Store) (t : MigrationTask) : Nat :=
  childRemainingAux s t.progress_top t.progress_child

def tickRankAux : Progress → Progress → Nat
  | Progress.complete, _ => 0
  | Progress.toStart, Progress.toStart => 2
  | Progress.toStart, Progress.lastKey _ => 2
  | Progress.toStart, Progress.complete => 1
  | Progress.lastKey _, Progress.toStart => 2
  | Progress.lastKey _, Progress.lastKey _ => 2
  | Progress.lastKey _, Progress.complete => 1

def tickRank (t : MigrationTask) : Nat :=
  tickRankAux t.progress_top t.progress_child

def storeChildBound (s : Store) : Nat :=
  (s.child.map (fun rc => rc.2.length)).sum + 2

def loopMeasure (t : MigrationTask) (s : Store) : Nat :=
  4 * storeChildBound s * remainingIn s.topKeys t.progress_top +
    4 * childRemaining s t + tickRank t

theorem storeChildBound_ge (s : Store) : 2 ≤ storeChildBound s := by
  unfold storeChildBound; omega

theorem storeChildBound_childSet {s : Store} {r k v : Bytes} (w : Bytes)
    (h : s.childGet r k = some v) :
    storeChildBound (s.childSet r k w) = storeChildBound s := by
  unfold storeChildBound
  rw [storeChildBound_aux w h]

theorem tickRank_le (t : MigrationTask) : tickRank t ≤ 2 := by
  unfold tickRank
  cases t.progress_top <;> cases t.progress_child <;> simp [tickRankAux]

theorem childKeysOf_length_le (s : Store) (r : Bytes) :
    (childKeysOf s r).length ≤ (s.child.map (fun rc => rc.2.length)).sum := by
  unfold childKeysOf
  cases hl : lookupKV s.child r with
  | none => simp
  | some l =>
    simp only [Option.getD_some, List.length_map]
    exact mem_le_sum (List.mem_map_of_mem (fun rc => rc.2.length) (lookupKV_mem hl))

theorem remainingIn_le (keys : List Bytes) (p : Progress) :
    remainingIn keys p ≤ keys.length + 1 := by
  cases p with
  | toStart => simp [remainingIn]
  | lastKey c =>
    have := List.countP_le_length (p := fun x => bytesLt c x) (l := keys)
    simp [remainingIn]
    omega
  | complete => simp [remainingIn]

theorem childRemaining_lt (s : Store) (t : MigrationTask) :
    childRemaining s t < storeChildBound s := by
  have hB := storeChildBound_ge s
  unfold childRemaining
  cases hpt : t.progress_top with
  | toStart => simp [childRemainingAux]; omega
  | complete => simp [childRemainingAux]; omega
  | lastKey k =>
    simp only [childRemainingAux]
    have h1 := childKeysOf_length_le s (transform_child_key_or_halt k)
    have h2 := remainingIn_le (childKeysOf s (transform_child_key_or_halt k)) t.progress_child
    unfold storeChildBound
    omega

/-! ### Shapes of successful per-namespace steps -/

theorem migrate_top_spec {cfg : Config} {t : MigrationTask} {s : Store}
    {r : MigrationTask × Store}
    (h : migrate_top cfg t s = Except.ok r) :
    r.2.topKeys = s.topKeys ∧ r.2.child = s.child ∧
    r.1.progress_child = t.progress_child ∧ r.1.size = t.size ∧
    r.1.top_items = t.top_items ∧ r.1.child_items = t.child_items ∧
    r.1.dyn_child_items = t.dyn_child_items ∧
    ((t.progress_top = Progress.toStart ∧ r.1.progress_top = Progress.lastKey []) ∨
     (∃ k k', t.progress_top = Progress.lastKey k ∧ s.nextKey k = some k' ∧
        bytesLt k k' = true ∧ k' ∈ s.topKeys ∧ r.1.progress_top = Progress.lastKey k') ∨
     (∃ k, t.progress_top = Progress.lastKey k ∧ s.nextKey k = none ∧
        r.1 = { t with progress_top := Progress.complete } ∧ r.2 = s) ∨
     (t.progress_top = Progress.complete ∧ r.1 = t ∧ r.2 = s)) := by
  unfold migrate_top at h
  split at h
  · rename_i last_top heq
    split at h
    · rename_i next hnk
      split at h
      · cases h
      · injection h with h
        subst h
        obtain ⟨hgt, hmem⟩ := nextKeyIn_some hnk
        unfold processTopKey
        cases hget : s.get next with
        | some data =>
          simp only [hget]
          refine ⟨?_, ?_, ?_, ?_, ?_, ?_, ?_, ?_⟩ <;>
            first
            | trivial
            | exact set_topKeys_eq data hget
            | exact Or.inr (Or.inl ⟨last_top, next, heq, hnk, hgt, hmem, by trivial⟩)
        | none =>
          simp only [hget]
          refine ⟨?_, ?_, ?_, ?_, ?_, ?_, ?_, ?_⟩ <;>
            first
            | trivial
            | exact Or.inr (Or.inl ⟨last_top, next, heq, hnk, hgt, hmem, by trivial⟩)
    · rename_i hnk
      injection h with h
      subst h
      unfold processTopKey
      refine ⟨?_, ?_, ?_, ?_, ?_, ?_, ?_, ?_⟩ <;>
        first
        | trivial
        | exact Or.inr (Or.inr (Or.inl ⟨last_top, heq, hnk, by trivial, by trivial⟩))
  · rename_i heq
    injection h with h
    subst h
    unfold processTopKey
    cases hget : s.get [] with
    | some data =>
      simp only [hget]
      refine ⟨?_, ?_, ?_, ?_, ?_, ?_, ?_, ?_⟩ <;>
        first
        | trivial
        | exact set_topKeys_eq data hget
        | exact Or.inl ⟨heq, by trivial⟩
    | none =>
      simp only [hget]
      refine ⟨?_, ?_, ?_, ?_, ?_, ?_, ?_, ?_⟩ <;>
        first
        | trivial
        | exact Or.inl ⟨heq, by trivial⟩
  · rename_i heq
    injection h with h
    subst h
    refine ⟨?_, ?_, ?_, ?_, ?_, ?_, ?_, ?_⟩ <;>
      first
      | trivial
      | exact Or.inr (Or.inr (Or.inr ⟨heq, by trivial, by trivial⟩))

theorem migrate_child_spec {cfg : Config} {t : MigrationTask} {s : Store}
    {r : MigrationTask × Store}
    (h : migrate_child cfg t s = Except.ok r) :
    r.2.top = s.top ∧ (∀ rt, childKeysOf r.2 rt = childKeysOf s rt) ∧
    storeChildBound r.2 = storeChildBound s ∧
    r.1.progress_top = t.progress_top ∧ r.1.size = t.size ∧
    r.1.top_items = t.top_items ∧ r.1.child_items = t.child_items ∧
    r.1.dyn_top_items = t.dyn_top_items ∧
    ((∃ k, t.progress_top = Progress.lastKey k ∧ t.progress_child = Progress.toStart ∧
        r.1.progress_child = Progress.lastKey []) ∨
     (∃ k c c', t.progress_top = Progress.lastKey k ∧ t.progress_child = Progress.lastKey c ∧
        s.childNextKey (transform_child_key_or_halt k) c = some c' ∧ bytesLt c c' = true ∧
        c' ∈ childKeysOf s (transform_child_key_or_halt k) ∧
        r.1.progress_child = Progress.lastKey c') ∨
     (∃ k c, t.progress_top = Progress.lastKey k ∧ t.progress_child = Progress.lastKey c ∧
        s.childNextKey (transform_child_key_or_halt k) c = none ∧
        r.1 = { t with progress_child := Progress.complete } ∧ r.2 = s) ∨
     (r.1 = t ∧ r.2 = s ∧
       (t.progress_child = Progress.complete ∨ t.progress_top = Progress.toStart ∨
        t.progress_top = Progress.complete))) := by
  unfold migrate_child at h
  split at h
  · rename_i last_child last_top heqc heqt
    split at h
    · rename_i next hnk
      split at h
      · cases h
      · injection h with h
        subst h
        obtain ⟨hgt, hmem⟩ := nextKeyIn_some hnk
        unfold processChildKey
        cases hget : s.childGet (transform_child_key_or_halt last_top) next with
        | some data =>
          simp only [hget]
          refine ⟨?_, ?_, ?_, ?_, ?_, ?_, ?_, ?_, ?_⟩ <;>
            first
            | trivial
            | exact childSet_top_eq s _ _ _
            | exact childKeysOf_childSet data hget
            | exact storeChildBound_childSet data hget
            | exact Or.inr
                (Or.inl ⟨last_top, last_child, next, heqt, heqc, hnk, hgt, hmem, by trivial⟩)
        | none =>
          simp only [hget]
          refine ⟨?_, ?_, ?_, ?_, ?_, ?_, ?_, ?_, ?_⟩ <;>
            first
            | trivial
            | exact fun _ => rfl
            | exact fun _ => trivial
            | exact Or.inr
                (Or.inl ⟨last_top, last_child, next, heqt, heqc, hnk, hgt, hmem, by trivial⟩)
    · rename_i hnk
      injection h with h
      subst h
      unfold processChildKey
      refine ⟨?_, ?_, ?_, ?_, ?_, ?_, ?_, ?_, ?_⟩ <;>
        first
        | trivial
        | exact fun _ => rfl
        | exact fun _ => trivial
        | exact Or.inr (Or.inr (Or.inl ⟨last_top, last_child, heqt, heqc, hnk, by trivial, by trivial⟩))
  · rename_i last_top heqc heqt
    injection h with h
    subst h
    unfold processChildKey
    cases hget : s.childGet (transform_child_key_or_halt last_top) [] with
    | some data =>
      simp only [hget]
      refine ⟨?_, ?_, ?_, ?_, ?_, ?_, ?_, ?_, ?_⟩ <;>
        first
        | trivial
        | exact childSet_top_eq s _ _ _
        | exact childKeysOf_childSet data hget
        | exact storeChildBound_childSet data hget
        | exact Or.inl ⟨last_top, heqt, heqc, by trivial⟩
    | none =>
      simp only [hget]
      refine ⟨?_, ?_, ?_, ?_, ?_, ?_, ?_, ?_, ?_⟩ <;>
        first
        | trivial
        | exact fun _ => rfl
        | exact fun _ => trivial
        | exact Or.inl ⟨last_top, heqt, heqc, by trivial⟩
  · rename_i hrow1 hrow2
    injection h with h
    subst h
    refine ⟨?_, ?_, ?_, ?_, ?_, ?_, ?_, ?_, Or.inr (Or.inr (Or.inr ⟨rfl, rfl, ?_⟩))⟩ <;>
      try first
        | trivial
        | exact fun _ => rfl
        | exact fun _ => trivial
    cases hpc : t.progress_child with
    | toStart =>
      cases hpt : t.progress_top with
      | toStart => exact Or.inr (Or.inl rfl)
      | lastKey k => exact (hrow2 k hpc hpt).elim
      | complete => exact Or.inr (Or.inr rfl)
    | lastKey c =>
      cases hpt : t.progress_top with
      | toStart => exact Or.inr (Or.inl rfl)
      | lastKey k => exact (hrow1 c k hpc hpt).elim
      | complete => exact Or.inr (Or.inr rfl)
    | complete => exact Or.inl rfl

/-! ### The tick dispatcher, row by row -/

theorem tick_toStart {cfg : Config} {t : MigrationTask} (s : Store)
    (h : t.progress_top = Progress.toStart) :
    migrate_tick cfg t s = migrate_top cfg t s := by
  unfold migrate_tick; rw [h]

theorem tick_lastKey_lastKey {cfg : Config} {t : MigrationTask} (s : Store) {k c : Bytes}
    (h1 : t.progress_top = Progress.lastKey k) (h2 : t.progress_child = Progress.lastKey c) :
    migrate_tick cfg t s = migrate_child cfg t s := by
  unfold migrate_tick; rw [h1, h2]

theorem tick_lastKey_toStart {cfg : Config} {t : MigrationTask} (s : Store) {k : Bytes}
    (h1 : t.progress_top = Progress.lastKey k) (h2 : t.progress_child = Progress.toStart) :
    migrate_tick cfg t s =
      if !(childStorageMarker.isPrefixOf k) then migrate_top cfg t s
      else migrate_child cfg t s := by
  unfold migrate_tick; rw [h1, h2]

theorem tick_lastKey_complete {cfg : Config} {t : MigrationTask} (s : Store) {k : Bytes}
    (h1 : t.progress_top = Progress.lastKey k) (h2 : t.progress_child = Progress.complete) :
    migrate_tick cfg t s =
      match migrate_top cfg t s with
      | Except.error e => Except.error e
      | Except.ok (t', s') =>
        Except.ok ({ t' with progress_child := Progress.toStart }, s') := by
  unfold migrate_tick; rw [h1, h2]

theorem tick_complete {cfg : Config} {t : MigrationTask} (s : Store)
    (h : t.progress_top = Progress.complete) :
    migrate_tick cfg t s = Except.ok (t, s) := by
  unfold migrate_tick; rw [h]

/-! ### The measure decreases along every successful tick -/

theorem measure_lt_top {t t' : MigrationTask} {s s' : Store}
    (hB : storeChildBound s' = storeChildBound s)
    (hlt : remainingIn s'.topKeys t'.progress_top < remainingIn s.topKeys t.progress_top) :
    loopMeasure t' s' < loopMeasure t s := by
  have h1 := childRemaining_lt s' t'
  have h2 := tickRank_le t'
  have hBge := storeChildBound_ge s
  have h3 : 4 * storeChildBound s * (remainingIn s'.topKeys t'.progress_top + 1) ≤
      4 * storeChildBound s * remainingIn s.topKeys t.progress_top :=
    Nat.mul_le_mul_left _ (Nat.succ_le_of_lt hlt)
  rw [hB] at h1
  unfold loopMeasure
  rw [hB]
  rw [Nat.mul_add, Nat.mul_one] at h3
  omega

theorem measure_lt_child {t t' : MigrationTask} {s s' : Store}
    (hB : storeChildBound s' = storeChildBound s)
    (hx : remainingIn s'.topKeys t'.progress_top = remainingIn s.topKeys t.progress_top)
    (hlt : childRemaining s' t' < childRemaining s t) :
    loopMeasure t' s' < loopMeasure t s := by
  have h2 := tickRank_le t'
  unfold loopMeasure
  rw [hB, hx]
  omega

theorem measure_lt_rank {t t' : MigrationTask} {s s' : Store}
    (hB : storeChildBound s' = storeChildBound s)
    (hx : remainingIn s'.topKeys t'.progress_top = remainingIn s.topKeys t.progress_top)
    (hc : childRemaining s' t' = childRemaining s t)
    (hr : tickRank t' < tickRank t) :
    loopMeasure t' s' < loopMeasure t s := by
  unfold loopMeasure
  rw [hB, hx, hc]
  omega

theorem tick_measure_decreases {cfg : Config} {t : MigrationTask} {s : Store}
    {r : MigrationTask × Store}
    (hnf : t.finished = false) (htk : migrate_tick cfg t s = Except.ok r) :
    loopMeasure r.1 r.2 < loopMeasure t s := by
  cases hpt : t.progress_top with
  | complete =>
    unfold MigrationTask.finished at hnf
    rw [hpt] at hnf
    simp at hnf
  | toStart =>
    rw [tick_toStart s hpt] at htk
    obtain ⟨hk, hc, _, _, _, _, _, hdisj⟩ := migrate_top_spec htk
    have hB : storeChildBound r.2 = storeChildBound s := by
      unfold storeChildBound; rw [hc]
    apply measure_lt_top hB
    rcases hdisj with ⟨_, hpt'⟩ | ⟨k, k', hpt0, _⟩ | ⟨k, hpt0, _⟩ | ⟨hpt0, _⟩
    · rw [hk, hpt, hpt']
      simp only [remainingIn]
      have := List.countP_le_length (p := fun x => bytesLt [] x) (l := s.topKeys)
      omega
    · rw [hpt] at hpt0; cases hpt0
    · rw [hpt] at hpt0; cases hpt0
    · rw [hpt] at hpt0; cases hpt0
  | lastKey k =>
    cases hpc : t.progress_child with
    | lastKey c =>
      rw [tick_lastKey_lastKey s hpt hpc] at htk
      obtain ⟨htop, hckeys, hB, htp, _, _, _, _, hdisj⟩ := migrate_child_spec htk
      have htopkeys : r.2.topKeys = s.topKeys := by
        unfold Store.topKeys; rw [htop]
      have hx : remainingIn r.2.topKeys r.1.progress_top =
          remainingIn s.topKeys t.progress_top := by rw [htopkeys, htp]
      rcases hdisj with ⟨k0, hpt0, hpc0, hpcr⟩ |
        ⟨k0, c0, c', hpt0, hpc0, hnk, hgt, hmem, hpc'⟩ |
        ⟨k0, c0, hpt0, hpc0, hnk, hr1, hr2⟩ | ⟨hr1, hr2, hstate⟩
      · rw [hpc] at hpc0; cases hpc0
      · rw [hpt] at hpt0; injection hpt0 with hk0; subst hk0
        rw [hpc] at hpc0; injection hpc0 with hc0; subst hc0
        apply measure_lt_child hB hx
        unfold childRemaining childRemainingAux
        rw [htp, hpt, hpc, hpc']
        simp only [remainingIn, hckeys]
        exact countGreater_lt hmem hgt
      · rw [hpt] at hpt0; injection hpt0 with hk0; subst hk0
        rw [hpc] at hpc0; injection hpc0 with hc0; subst hc0
        apply measure_lt_rank hB hx
        · unfold childRemaining childRemainingAux
          rw [htp, hpt, hpc, hr1]
          simp only [remainingIn, hckeys]
          exact (countGreater_eq_zero hnk).symm
        · unfold tickRank tickRankAux
          rw [htp, hpt, hpc, hr1]
          simp
      · rcases hstate with h0 | h0 | h0
        · rw [hpc] at h0; cases h0
        · rw [hpt] at h0; cases h0
        · rw [hpt] at h0; cases h0
    | toStart =>
      rw [tick_lastKey_toStart s hpt hpc] at htk
      cases hm : childStorageMarker.isPrefixOf k with
      | false =>
        rw [hm] at htk
        simp only [Bool.not_false, if_pos] at htk
        obtain ⟨hk2, hc, _, _, _, _, _, hdisj⟩ := migrate_top_spec htk
        have hB : storeChildBound r.2 = storeChildBound s := by
          unfold storeChildBound; rw [hc]
        rcases hdisj with ⟨hpt0, _⟩ | ⟨k0, k', hpt0, hnk, hgt, hmem, hpt'⟩ |
          ⟨k0, hpt0, hnk, hr1, hr2⟩ | ⟨hpt0, _⟩
        · rw [hpt] at hpt0; cases hpt0
        · rw [hpt] at hpt0; injection hpt0 with hk0; subst hk0
          apply measure_lt_top hB
          rw [hk2, hpt, hpt']
          simp only [remainingIn]
          exact countGreater_lt hmem hgt
        · rw [hpt] at hpt0; injection hpt0 with hk0; subst hk0
          apply measure_lt_child hB
          · rw [hk2, hpt, hr1]
            simp only [remainingIn]
            exact (countGreater_eq_zero hnk).symm
          · unfold childRemaining childRemainingAux
            rw [hr1, hpt, hpc]
            simp only [remainingIn]
            omega
        · rw [hpt] at hpt0; cases hpt0
      | true =>
        rw [hm] at htk
        simp only [Bool.not_true, Bool.false_eq_true, if_false] at htk
        obtain ⟨htop, hckeys, hB, htp, _, _, _, _, hdisj⟩ := migrate_child_spec htk
        have htopkeys : r.2.topKeys = s.topKeys := by
          unfold Store.topKeys; rw [htop]
        have hx : remainingIn r.2.topKeys r.1.progress_top =
            remainingIn s.topKeys t.progress_top := by rw [htopkeys, htp]
        rcases hdisj with ⟨k0, hpt0, hpc0, hpcr⟩ |
          ⟨k0, c0, c', hpt0, hpc0, hnk, hgt, hmem, hpc'⟩ |
          ⟨k0, c0, hpt0, hpc0, hnk, hr1, hr2⟩ | ⟨hr1, hr2, hstate⟩
        · rw [hpt] at hpt0; injection hpt0 with hk0; subst hk0
          apply measure_lt_child hB hx
          unfold childRemaining childRemainingAux
          rw [htp, hpt, hpc, hpcr]
          simp only [remainingIn, hckeys]
          have := List.countP_le_length (p := fun x => bytesLt [] x)
            (l := childKeysOf s (transform_child_key_or_halt k))
          omega
        · rw [hpc] at hpc0; cases hpc0
        · rw [hpc] at hpc0; cases hpc0
        · rcases hstate with h0 | h0 | h0
          · rw [hpc] at h0; cases h0
          · rw [hpt] at h0; cases h0
          · rw [hpt] at h0; cases h0
    | complete =>
      rw [tick_lastKey_complete s hpt hpc] at htk
      split at htk
      · cases htk
      · rename_i t1 s1 hmt
        injection htk with htk
        subst htk
        obtain ⟨hk2, hc, _, _, _, _, _, hdisj⟩ := migrate_top_spec hmt
        have hk2' : s1.topKeys = s.topKeys := hk2
        have hB : storeChildBound s1 = storeChildBound s := by
          unfold storeChildBound; rw [show s1.child = s.child from hc]
        rcases hdisj with ⟨hpt0, _⟩ | ⟨k0, k', hpt0, hnk, hgt, hmem, hpt'⟩ |
          ⟨k0, hpt0, hnk, hr1, hr2⟩ | ⟨hpt0, _⟩
        · rw [hpt] at hpt0; cases hpt0
        · rw [hpt] at hpt0; injection hpt0 with hk0; subst hk0
          have hpt'' : t1.progress_top = Progress.lastKey k' := hpt'
          apply measure_lt_top hB
          show remainingIn s1.topKeys t1.progress_top < remainingIn s.topKeys t.progress_top
          rw [hk2', hpt, hpt'']
          simp only [remainingIn]
          exact countGreater_lt hmem hgt
        · rw [hpt] at hpt0; injection hpt0 with hk0; subst hk0
          have hr1' : t1 = { t with progress_top := Progress.complete } := hr1
          apply measure_lt_rank hB
          · show remainingIn s1.topKeys t1.progress_top = remainingIn s.topKeys t.progress_top
            rw [hk2', hpt, hr1']
            simp only [remainingIn]
            exact (countGreater_eq_zero hnk).symm
          · show childRemaining s1 { t1 with progress_child := Progress.toStart } =
              childRemaining s t
            unfold childRemaining
            rw [hr1', hpt, hpc]
            simp [childRemainingAux, remainingIn]
          · show tickRank { t1 with progress_child := Progress.toStart } < tickRank t
            unfold tickRank
            rw [hr1', hpt, hpc]
            simp [tickRankAux]
        · rw [hpt] at hpt0; cases hpt0

/-! ### The exhaustion loop -/

/-- The `while !self.exhausted(limits) && !self.finished()` loop of
`MigrationTask::migrate_until_exhaustion`.  On a tick error the loop stops and
the caller keeps the task and store as mutated by the earlier, successful
ticks (the Rust method works on `&mut self` and the storage is already
written). -/
def migrateLoop (cfg : Config) (limits : MigrationLimits) (t : MigrationTask) (s : Store) :
    Option MigError × MigrationTask × Store :=
  if h : t.exhausted limits || t.finished then (none, t, s)
  else
    match htk : migrate_tick cfg t s with
    | Except.error e => (some e, t, s)
    | Except.ok (t', s') => migrateLoop cfg limits t' s'
termination_by loopMeasure t s
decreasing_by
  have hnf : t.finished = false := by
    cases hf : t.finished with
    | false => rfl
    | true => exact absurd (by rw [hf]; simp) h
  exact tick_measure_decreases hnf htk

theorem migrateLoop_exit {cfg : Config} {limits : MigrationLimits} {t : MigrationTask}
    {s : Store} (h : (t.exhausted limits || t.finished) = true) :
    migrateLoop cfg limits t s = (none, t, s) := by
  unfold migrateLoop
  rw [dif_pos h]

theorem migrateLoop_error {cfg : Config} {limits : MigrationLimits} {t : MigrationTask}
    {s : Store} {e : MigError} (h : (t.exhausted limits || t.finished) = false)
    (htk : migrate_tick cfg t s = Except.error e) :
    migrateLoop cfg limits t s = (some e, t, s) := by
  unfold migrateLoop
  rw [dif_neg (by simp [h])]
  split
  · rename_i e2 htk2
    rw [htk] at htk2
    injection htk2 with he
    subst he
    rfl
  · rename_i t1 s1 htk2
    rw [htk] at htk2
    cases htk2

theorem migrateLoop_step {cfg : Config} {limits : MigrationLimits} {t : MigrationTask}
    {s : Store} {t1 : MigrationTask} {s1 : Store}
    (h : (t.exhausted limits || t.finished) = false)
    (htk : migrate_tick cfg t s = Except.ok (t1, s1)) :
    migrateLoop cfg limits t s = migrateLoop cfg limits t1 s1 := by
  conv_lhs => rw [migrateLoop]
  rw [dif_neg (by simp [h])]
  split
  · rename_i e2 htk2
    rw [htk] at htk2
    cases htk2
  · rename_i t2 s2 htk2
    rw [htk] at htk2
    injection htk2 with hp
    injection hp with h1 h2
    subst h1
    subst h2
    rfl

/-! ### Counter behaviour of a single tick -/

theorem migrate_top_dyn_le {cfg : Config} {t : MigrationTask} {s : Store}
    {r : MigrationTask × Store} (h : migrate_top cfg t s = Except.ok r) :
    r.1.dyn_top_items ≤ t.dyn_top_items + 1 := by
  unfold migrate_top at h
  split at h
  · split at h
    · split at h
      · cases h
      · injection h with h
        subst h
        unfold processTopKey
        rename_i next hnk _
        cases hget : s.get next <;> simp [hget, satAdd] <;> omega
    · injection h with h
      subst h
      unfold processTopKey
      simp
  · injection h with h
    subst h
    unfold processTopKey
    cases hget : s.get [] <;> simp [hget, satAdd] <;> omega
  · injection h with h
    subst h
    simp

theorem migrate_child_dyn_le {cfg : Config} {t : MigrationTask} {s : Store}
    {r : MigrationTask × Store} (h : migrate_child cfg t s = Except.ok r) :
    r.1.dyn_child_items ≤ t.dyn_child_items + 1 := by
  unfold migrate_child at h
  split at h
  · rename_i last_child last_top heqc heqt
    split at h
    · split at h
      · cases h
      · injection h with h
        subst h
        unfold processChildKey
        rename_i next hnk _
        cases hget : s.childGet (transform_child_key_or_halt last_top) next <;>
          simp [hget, satAdd] <;> omega
    · injection h with h
      subst h
      unfold processChildKey
      simp
  · rename_i last_top heqc heqt
    injection h with h
    subst h
    unfold processChildKey
    cases hget : s.childGet (transform_child_key_or_halt last_top) [] <;>
      simp [hget, satAdd] <;> omega
  · injection h with h
    subst h
    simp

theorem tick_counters {cfg : Config} {t : MigrationTask} {s : Store}
    {r : MigrationTask × Store} (htk : migrate_tick cfg t s = Except.ok r) :
    r.1.size = t.size ∧ r.1.top_items = t.top_items ∧ r.1.child_items = t.child_items ∧
    r.1.dyn_top_items + r.1.dyn_child_items ≤ t.dyn_top_items + t.dyn_child_items + 1 ∧
    (r.1.dyn_top_items = t.dyn_top_items ∨ r.1.dyn_child_items = t.dyn_child_items) := by
  cases hpt : t.progress_top with
  | toStart =>
    rw [tick_toStart s hpt] at htk
    obtain ⟨_, _, _, h1, h2, h3, h4, _⟩ := migrate_top_spec htk
    have h5 := migrate_top_dyn_le htk
    exact ⟨h1, h2, h3, by omega, Or.inr h4⟩
  | complete =>
    rw [tick_complete s hpt] at htk
    injection htk with htk
    subst htk
    exact ⟨rfl, rfl, rfl, Nat.le_succ _, Or.inl rfl⟩
  | lastKey k =>
    cases hpc : t.progress_child with
    | lastKey c =>
      rw [tick_lastKey_lastKey s hpt hpc] at htk
      obtain ⟨_, _, _, _, h1, h2, h3, h4, _⟩ := migrate_child_spec htk
      have h5 := migrate_child_dyn_le htk
      exact ⟨h1, h2, h3, by omega, Or.inl h4⟩
    | toStart =>
      rw [tick_lastKey_toStart s hpt hpc] at htk
      cases hm : childStorageMarker.isPrefixOf k with
      | false =>
        rw [hm] at htk
        simp only [Bool.not_false, if_pos] at htk
        obtain ⟨_, _, _, h1, h2, h3, h4, _⟩ := migrate_top_spec htk
        have h5 := migrate_top_dyn_le htk
        exact ⟨h1, h2, h3, by omega, Or.inr h4⟩
      | true =>
        rw [hm] at htk
        simp only [Bool.not_true, Bool.false_eq_true, if_false] at htk
        obtain ⟨_, _, _, _, h1, h2, h3, h4, _⟩ := migrate_child_spec htk
        have h5 := migrate_child_dyn_le htk
        exact ⟨h1, h2, h3, by omega, Or.inl h4⟩
    | complete =>
      rw [tick_lastKey_complete s hpt hpc] at htk
      split at htk
      · cases htk
      · rename_i t1 s1 hmt
        injection htk with htk
        subst htk
        obtain ⟨_, _, _, h1, h2, h3, h4, _⟩ := migrate_top_spec hmt
        have h5 := migrate_top_dyn_le hmt
        refine ⟨h1, h2, h3, ?_, Or.inr h4⟩
        show t1.dyn_top_items + t1.dyn_child_items ≤
          t.dyn_top_items + t.dyn_child_items + 1
        have h4' : t1.dyn_child_items = t.dyn_child_items := h4
        have h5' : t1.dyn_top_items ≤ t.dyn_top_items + 1 := h5
        omega

/-! ### Loop invariants -/

theorem migrateLoop_counters (cfg : Config) (limits : MigrationLimits) :
    ∀ (n : Nat) (t : MigrationTask) (s : Store), loopMeasure t s ≤ n →
      (migrateLoop cfg limits t s).2.1.size = t.size ∧
      (migrateLoop cfg limits t s).2.1.top_items = t.top_items ∧
      (migrateLoop cfg limits t s).2.1.child_items = t.child_items ∧
      (limits.item ≤ U32MAX →
        t.dyn_top_items + t.dyn_child_items ≤ limits.item →
        (migrateLoop cfg limits t s).2.1.dyn_top_items +
          (migrateLoop cfg limits t s).2.1.dyn_child_items ≤ limits.item) := by
  intro n
  induction n with
  | zero =>
    intro t s hn
    by_cases hex : (t.exhausted limits || t.finished) = true
    · rw [migrateLoop_exit hex]
      exact ⟨rfl, rfl, rfl, fun _ h => h⟩
    · have hexf : (t.exhausted limits || t.finished) = false := by
        simpa using hex
      have hnf : t.finished = false := by
        cases hor : t.finished
        · rfl
        · rw [hor] at hexf; simp at hexf
      cases htk : migrate_tick cfg t s with
      | error e =>
        rw [migrateLoop_error hexf htk]
        exact ⟨rfl, rfl, rfl, fun _ h => h⟩
      | ok p =>
        exfalso
        have := tick_measure_decreases hnf htk
        omega
  | succ n ih =>
    intro t s hn
    by_cases hex : (t.exhausted limits || t.finished) = true
    · rw [migrateLoop_exit hex]
      exact ⟨rfl, rfl, rfl, fun _ h => h⟩
    · have hexf : (t.exhausted limits || t.finished) = false := by
        simpa using hex
      have hnf : t.finished = false := by
        cases hor : t.finished
        · rfl
        · rw [hor] at hexf; simp at hexf
      cases htk : migrate_tick cfg t s with
      | error e =>
        rw [migrateLoop_error hexf htk]
        exact ⟨rfl, rfl, rfl, fun _ h => h⟩
      | ok p =>
        obtain ⟨t1, s1⟩ := p
        rw [migrateLoop_step hexf htk]
        have hdec := tick_measure_decreases hnf htk
        have hmeas : loopMeasure t1 s1 ≤ n := by
          have : loopMeasure (t1, s1).1 (t1, s1).2 = loopMeasure t1 s1 := rfl
          omega
        obtain ⟨i1, i2, i3, i4⟩ := ih t1 s1 hmeas
        obtain ⟨c1, c2, c3, c4, _⟩ := tick_counters htk
        have c4' : t1.dyn_top_items + t1.dyn_child_items ≤
            t.dyn_top_items + t.dyn_child_items + 1 := c4
        refine ⟨by rw [i1]; exact c1, by rw [i2]; exact c2, by rw [i3]; exact c3, ?_⟩
        intro hle hstart
        apply i4 hle
        have hexh : t.exhausted limits = false := by
          cases ho : t.exhausted limits
          · rfl
          · rw [ho] at hexf; simp at hexf
        have hlt : t.dyn_total_items < limits.item := by
          unfold MigrationTask.exhausted at hexh
          rcases Bool.or_eq_false_iff.mp hexh with ⟨ha, _⟩
          simpa using of_decide_eq_false ha
        have hsum : t.dyn_top_items + t.dyn_child_items < limits.item := by
          unfold MigrationTask.dyn_total_items satAdd at hlt
          omega
        omega

/-- `MigrationTask::migrate_until_exhaustion`: zero-limit early return, the
`while` loop, and the final fold of the dynamic counters into the cumulative
ones — the fold runs only when the loop finished without an error. -/
def migrate_until_exhaustion (cfg : Config) (limits : MigrationLimits)
    (t : MigrationTask) (s : Store) : Option MigError × MigrationTask × Store :=
  if limits.item = 0 ∨ limits.size = 0 then (none, t, s)
  else
    match migrateLoop cfg limits t s with
    | (some e, t', s') => (some e, t', s')
    | (none, t', s') =>
      (none, { t' with size := satAdd t'.size t'.dyn_size,
                       child_items := satAdd t'.child_items t'.dyn_child_items,
                       top_items := satAdd t'.top_items t'.dyn_top_items }, s')

theorem mue_zero {cfg : Config} {limits : MigrationLimits} {t : MigrationTask} {s : Store}
    (h : limits.item = 0 ∨ limits.size = 0) :
    migrate_until_exhaustion cfg limits t s = (none, t, s) := by
  unfold migrate_until_exhaustion
  rw [if_pos h]

theorem mue_error_cumulative {cfg : Config} {limits : MigrationLimits} {t : MigrationTask}
    {s : Store} {e : MigError} {t' : MigrationTask} {s' : Store}
    (h : migrate_until_exhaustion cfg limits t s = (some e, t', s')) :
    t'.size = t.size ∧ t'.top_items = t.top_items ∧ t'.child_items = t.child_items := by
  unfold migrate_until_exhaustion at h
  split at h
  · injection h with h1
    cases h1
  · obtain ⟨i1, i2, i3, _⟩ :=
      migrateLoop_counters cfg limits (loopMeasure t s) t s (Nat.le_refl _)
    split at h
    · rename_i e2 t2 s2 heq
      injection h with h1 h2
      injection h2 with h2 h3
      subst h2
      rw [heq] at i1 i2 i3
      exact ⟨i1, i2, i3⟩
    · injection h with h1
      cases h1

theorem mue_dyn_bound {cfg : Config} {limits : MigrationLimits} {t : MigrationTask} {s : Store}
    (hle : limits.item ≤ U32MAX) (h1 : t.dyn_top_items = 0) (h2 : t.dyn_child_items = 0)
    (h3 : 0 < limits.item) :
    (migrate_until_exhaustion cfg limits t s).2.1.dyn_top_items +
      (migrate_until_exhaustion cfg limits t s).2.1.dyn_child_items ≤ limits.item := by
  unfold migrate_until_exhaustion
  split
  · simp only []
    omega
  · obtain ⟨_, _, _, i4⟩ :=
      migrateLoop_counters cfg limits (loopMeasure t s) t s (Nat.le_refl _)
    have hb := i4 hle (by omega)
    split
    · rename_i e2 t2 s2 heq
      rw [heq] at hb
      exact hb
    · rename_i t2 s2 heq
      rw [heq] at hb
      exact hb

/-! ### The pallet layer: storage cells, events, dispatch results, economics -/

inductive MigrationCompute where
  | signed
  | auto
deriving DecidableEq

/-- `Event<T>` (the account in `Slashed` is always the single modelled
caller, so only the amount is kept). -/
inductive Event where
  | migrated (top child : Nat) (compute : MigrationCompute)
  | slashed (amount : Nat)
  | autoMigrationFinished
  | halted (error : MigError)
deriving DecidableEq

/-- The caller's balance and the amount held from it for this pallet. -/
structure AccountState where
  free : Nat
  held : Nat
deriving DecidableEq

/-- The pallet's persistent cells (`MigrationProcess`, `AutoLimits`,
`SignedMigrationMaxLimits`), the key-value store they drive, the single
caller's account, and the emitted events. -/
structure PalletState where
  migrationProcess : MigrationTask
  autoLimits : Option MigrationLimits
  signedMigrationMaxLimits : Option MigrationLimits
  store : Store
  caller : AccountState
  events : List Event
deriving DecidableEq

/-- Symbolic dispatch weights: each constructor records which source weight
formula is reported and the counts it is instantiated with. -/
inductive WeightExpr where
  | continueMigrateWrongWitness
  | continueMigrateOk (items size : Nat)
  | migrateCustomTopSuccess (items size : Nat)
  | migrateCustomChildSuccess (items size : Nat)
  | migrateCustomChildFail
deriving DecidableEq

/-- `PostDispatchInfo`: the reported actual weight and whether the fee is
charged (`paysFee = true` is `Pays::Yes`). -/
structure PostInfo where
  actualWeight : Option WeightExpr
  paysFee : Bool
deriving DecidableEq

/-- `PostDispatchInfo::default()`, what `Ok(().into())` and a bare `ensure!`
error report. -/
def defaultPost : PostInfo := { actualWeight := none, paysFee := true }

inductive DispatchErr where
  | pallet (e : MigError)
  | other
deriving DecidableEq

structure DispatchFailure where
  error : DispatchErr
  post : PostInfo
deriving DecidableEq

/-- `T::Currency::can_hold`: the caller can cover `amount`. -/
def canHold (a : AccountState) (amount : Nat) : Bool := decide (amount ≤ a.free)

/-- `Pallet::calculate_deposit_for`:
`SignedDepositBase + SignedDepositPerItem * keys_count` (saturating balance
arithmetic). -/
def calculate_deposit_for (cfg : Config) (keys_count : Nat) : Nat :=
  satAdd128 cfg.signedDepositBase (satMul128 cfg.signedDepositPerItem keys_count)

/-- `Pallet::slash`: hold `amount` from the caller, then burn everything held
and emit `Slashed`.  Fails (propagating a dispatch error) if the hold cannot
be placed. -/
def slashState (st : PalletState) (amount : Nat) : Option PalletState :=
  if amount ≤ st.caller.free then
    some { st with
      caller := { free := st.caller.free - amount, held := 0 },
      events := st.events ++ [Event.slashed amount] }
  else none

/-- `Pallet::halt`: clear `AutoLimits` and emit `Halted`. -/
def haltState (st : PalletState) (e : MigError) : PalletState :=
  { st with autoLimits := none, events := st.events ++ [Event.halted e] }

/-- `Pallet::continue_migrate`.  Dispatch errors return the caller's state
unchanged (FRAME dispatch is transactional, and every error path of the
source runs before any storage mutation except the slash-failure path, which
rolls back). -/
def continue_migrate (cfg : Config) (st : PalletState) (limits : MigrationLimits)
    (real_size_upper : Nat) (witness_task : MigrationTask) :
    Except DispatchFailure PostInfo × PalletState :=
  match st.signedMigrationMaxLimits with
  | none =>
    (Except.error ⟨DispatchErr.pallet MigError.signedMigrationNotAllowed, defaultPost⟩, st)
  | some max_limits =>
    if limits.size ≤ max_limits.size ∧ limits.item ≤ max_limits.item then
      if canHold st.caller (calculate_deposit_for cfg limits.item) then
        if st.migrationProcess = witness_task then
          match migrate_until_exhaustion cfg limits st.migrationProcess st.store with
          | (merr, task, store) =>
            if real_size_upper < task.dyn_size then
              match slashState { st with store := store }
                  (calculate_deposit_for cfg limits.item) with
              | some st' => (Except.ok defaultPost, st')
              | none => (Except.error ⟨DispatchErr.other, defaultPost⟩, st)
            else
              let post : PostInfo :=
                { actualWeight := some (WeightExpr.continueMigrateOk limits.item task.dyn_size),
                  paysFee := false }
              let st1 : PalletState :=
                { st with store := store,
                          events := st.events ++
                            [Event.migrated task.dyn_top_items task.dyn_child_items
                              MigrationCompute.signed],
                          migrationProcess := task }
              match merr with
              | some e => (Except.ok post, haltState st1 e)
              | none => (Except.ok post, st1)
        else
          (Except.error ⟨DispatchErr.pallet MigError.badWitness,
            { actualWeight := some WeightExpr.continueMigrateWrongWitness,
              paysFee := true }⟩, st)
      else
        (Except.error ⟨DispatchErr.pallet MigError.notEnoughFunds, defaultPost⟩, st)
    else
      (Except.error ⟨DispatchErr.pallet MigError.maxSignedLimits, defaultPost⟩, st)

/-- The per-block scheduler hook (`Hooks::on_init...` entry of the pallet)
for a block where `AutoLimits` is consulted; the returned weight is not
modelled (it does not touch the state). -/
def onInitializeHook (cfg : Config) (st : PalletState) : PalletState :=
  match st.autoLimits with
  | some limits =>
    match migrate_until_exhaustion cfg limits st.migrationProcess st.store with
    | (merr, task, store) =>
      let st1 : PalletState :=
        match merr with
        | some e => haltState { st with store := store } e
        | none => { st with store := store }
      let st2 : PalletState :=
        if task.finished then
          { st1 with events := st1.events ++ [Event.autoMigrationFinished],
                     autoLimits := none }
        else
          { st1 with events := st1.events ++
              [Event.migrated task.dyn_top_items task.dyn_child_items
                MigrationCompute.auto] }
      { st2 with migrationProcess := task }
  | none => st

/-- The read-then-rewrite fold of `Pallet::migrate_custom_top`: the
accumulated `dyn_size` and the store after rewriting the listed keys. -/
def customTopFold (st0 : Nat × Store) (keys : List Bytes) : Nat × Store :=
  keys.foldl (fun acc key =>
    match acc.2.get key with
    | some data => (satAdd acc.1 data.length, acc.2.set key data)
    | none => acc) st0

/-- The read-then-rewrite fold of `Pallet::migrate_custom_child`. -/
def customChildFold (root : Bytes) (st0 : Nat × Store) (keys : List Bytes) : Nat × Store :=
  keys.foldl (fun acc key =>
    match acc.2.childGet root key with
    | some data => (satAdd acc.1 data.length, acc.2.childSet root key data)
    | none => acc) st0

def customTopOkPost (items size : Nat) : PostInfo :=
  { actualWeight := some (WeightExpr.migrateCustomTopSuccess items size), paysFee := true }

def customChildOkPost (items size : Nat) : PostInfo :=
  { actualWeight := some (WeightExpr.migrateCustomChildSuccess items size), paysFee := true }

def customChildFailPost : PostInfo :=
  { actualWeight := some WeightExpr.migrateCustomChildFail, paysFee := true }

def customTopOkState (st : PalletState) (n : Nat) (store : Store) : PalletState :=
  { st with store := store,
            events := st.events ++ [Event.migrated n 0 MigrationCompute.signed] }

def customChildOkState (st : PalletState) (n : Nat) (store : Store) : PalletState :=
  { st with store := store,
            events := st.events ++ [Event.migrated 0 n MigrationCompute.signed] }

/-- `Pallet::migrate_custom_top`. -/
def migrate_custom_top (cfg : Config) (st : PalletState) (keys : List Bytes)
    (witness_size : Nat) : Except DispatchFailure PostInfo × PalletState :=
  if canHold st.caller (calculate_deposit_for cfg keys.length) then
    if witness_size < (customTopFold (0, st.store) keys).1 then
      match slashState { st with store := (customTopFold (0, st.store) keys).2 }
          (calculate_deposit_for cfg keys.length) with
      | some st' => (Except.ok defaultPost, st')
      | none => (Except.error ⟨DispatchErr.other, defaultPost⟩, st)
    else
      (Except.ok (customTopOkPost keys.length (customTopFold (0, st.store) keys).1),
       customTopOkState st keys.length (customTopFold (0, st.store) keys).2)
  else
    (Except.error ⟨DispatchErr.pallet MigError.notEnoughFunds, defaultPost⟩, st)

/-- `Pallet::migrate_custom_child`. -/
def migrate_custom_child (cfg : Config) (st : PalletState) (root : Bytes)
    (child_keys : List Bytes) (total_size : Nat) :
    Except DispatchFailure PostInfo × PalletState :=
  if canHold st.caller (calculate_deposit_for cfg child_keys.length) then
    match transform_child_key root with
    | none => (Except.error ⟨DispatchErr.other, defaultPost⟩, st)
    | some transformed =>
      if (customChildFold transformed (0, st.store) child_keys).1 ≠ total_size then
        match slashState
            { st with store := (customChildFold transformed (0, st.store) child_keys).2 }
            (calculate_deposit_for cfg child_keys.length) with
        | some st' => (Except.ok customChildFailPost, st')
        | none => (Except.error ⟨DispatchErr.other, defaultPost⟩, st)
      else
        (Except.ok (customChildOkPost child_keys.length total_size),
         customChildOkState st child_keys.length
           (customChildFold transformed (0, st.store) child_keys).2)
  else
    (Except.error ⟨DispatchErr.pallet MigError.notEnoughFunds, defaultPost⟩, st)

/-! ### The paths through `continue_migrate` -/

/-- The `PostDispatchInfo` of a successful `continue_migrate`: the measured
weight, fee waived (`Pays::No`). -/
def continueOkPost (items size : Nat) : PostInfo :=
  { actualWeight := some (WeightExpr.continueMigrateOk items size), paysFee := false }

/-- The state a successful, non-slashed `continue_migrate` leaves behind
before the error check: ticks applied to the store, `Migrated` emitted, the
advanced task persisted. -/
def continueOkState (st : PalletState) (task : MigrationTask) (store : Store) : PalletState :=
  { st with store := store,
            events := st.events ++
              [Event.migrated task.dyn_top_items task.dyn_child_items
                MigrationCompute.signed],
            migrationProcess := task }

/-- The state the slash path of `continue_migrate` leaves behind: ticks
applied to the store, deposit held and burned, `Slashed` emitted — and the
task NOT persisted. -/
def continueSlashState (st : PalletState) (dep : Nat) (store : Store) : PalletState :=
  { st with store := store,
            caller := { free := st.caller.free - dep, held := 0 },
            events := st.events ++ [Event.slashed dep] }

theorem continue_migrate_ok_path {cfg : Config} {st : PalletState} {limits : MigrationLimits}
    {rsu : Nat} {wt : MigrationTask} {max_limits : MigrationLimits}
    {merr : Option MigError} {task : MigrationTask} {store : Store}
    (h1 : st.signedMigrationMaxLimits = some max_limits)
    (h2 : limits.size ≤ max_limits.size ∧ limits.item ≤ max_limits.item)
    (h3 : canHold st.caller (calculate_deposit_for cfg limits.item) = true)
    (h4 : st.migrationProcess = wt)
    (h5 : migrate_until_exhaustion cfg limits st.migrationProcess st.store =
      (merr, task, store))
    (h6 : ¬ rsu < task.dyn_size) :
    continue_migrate cfg st limits rsu wt =
      (Except.ok (continueOkPost limits.item task.dyn_size),
       match merr with
       | some e => haltState (continueOkState st task store) e
       | none => continueOkState st task store) := by
  unfold continue_migrate
  simp only [h1]
  rw [if_pos h2, if_pos h3, if_pos h4]
  simp only [h5]
  rw [if_neg h6]
  cases merr <;> simp [continueOkPost, continueOkState, haltState, h1]

theorem continue_migrate_slash_path {cfg : Config} {st : PalletState}
    {limits : MigrationLimits} {rsu : Nat} {wt : MigrationTask}
    {max_limits : MigrationLimits} {merr : Option MigError} {task : MigrationTask}
    {store : Store}
    (h1 : st.signedMigrationMaxLimits = some max_limits)
    (h2 : limits.size ≤ max_limits.size ∧ limits.item ≤ max_limits.item)
    (h3 : canHold st.caller (calculate_deposit_for cfg limits.item) = true)
    (h4 : st.migrationProcess = wt)
    (h5 : migrate_until_exhaustion cfg limits st.migrationProcess st.store =
      (merr, task, store))
    (h6 : rsu < task.dyn_size) :
    continue_migrate cfg st limits rsu wt =
      (Except.ok defaultPost,
       continueSlashState st (calculate_deposit_for cfg limits.item) store) := by
  have hdep : calculate_deposit_for cfg limits.item ≤ st.caller.free := of_decide_eq_true h3
  unfold continue_migrate
  simp only [h1]
  rw [if_pos h2, if_pos h3, if_pos h4]
  simp only [h5]
  rw [if_pos h6]
  unfold slashState
  rw [if_pos hdep]
  simp [continueSlashState, h1]

/-! ### Concrete scenarios used by witnesses and counterexamples -/

/-- `MaxKeyLen = 2`, no deposits. -/
def cfgX : Config := { maxKeyLen := 2, signedDepositBase := 0, signedDepositPerItem := 0 }

/-- Two top keys, the second longer than `MaxKeyLen`; no child trees. -/
def storeX : Store := { top := [([1], [7]), ([1, 2, 3], [9])], child := [] }

def limitsX : MigrationLimits := { size := 100, item := 100 }

/-- After the first tick (the empty key, no value stored). -/
def t1X : MigrationTask := { progress_top := Progress.lastKey [], dyn_top_items := 1 }

/-- After the second tick (key `[1]`, one byte of value). -/
def t2X : MigrationTask :=
  { progress_top := Progress.lastKey [1], dyn_top_items := 2, dyn_size := 1 }

theorem mueX : migrate_until_exhaustion cfgX limitsX {} storeX =
    (some MigError.keyTooLong, t2X, storeX) := by
  unfold migrate_until_exhaustion
  rw [if_neg (by decide)]
  rw [migrateLoop_step (by rfl)
    (show migrate_tick cfgX {} storeX = Except.ok (t1X, storeX) from rfl)]
  rw [migrateLoop_step (by rfl)
    (show migrate_tick cfgX t1X storeX = Except.ok (t2X, storeX) from rfl)]
  rw [migrateLoop_error (by rfl)
    (show migrate_tick cfgX t2X storeX = Except.error MigError.keyTooLong from rfl)]

/-- `MaxKeyLen = 10`, base deposit 1, no per-item deposit. -/
def cfgY : Config := { maxKeyLen := 10, signedDepositBase := 1, signedDepositPerItem := 0 }

/-- One top key with a three-byte value. -/
def storeY : Store := { top := [([1], [5, 5, 5])], child := [] }

def limitsY : MigrationLimits := { size := 100, item := 100 }

def t1Y : MigrationTask := { progress_top := Progress.lastKey [], dyn_top_items := 1 }

def t2Y : MigrationTask :=
  { progress_top := Progress.lastKey [1], dyn_top_items := 2, dyn_size := 3 }

def t3Y : MigrationTask :=
  { progress_top := Progress.complete, dyn_top_items := 2, dyn_size := 3 }

/-- The finished task of scenario Y with the dynamic counters folded in. -/
def taskY : MigrationTask :=
  { progress_top := Progress.complete, dyn_top_items := 2, dyn_size := 3,
    size := 3, top_items := 2 }

theorem mueY : migrate_until_exhaustion cfgY limitsY {} storeY = (none, taskY, storeY) := by
  unfold migrate_until_exhaustion
  rw [if_neg (by decide)]
  rw [migrateLoop_step (by rfl)
    (show migrate_tick cfgY {} storeY = Except.ok (t1Y, storeY) from rfl)]
  rw [migrateLoop_step (by rfl)
    (show migrate_tick cfgY t1Y storeY = Except.ok (t2Y, storeY) from rfl)]
  rw [migrateLoop_step (by rfl)
    (show migrate_tick cfgY t2Y storeY = Except.ok (t3Y, storeY) from rfl)]
  rw [migrateLoop_exit (by rfl)]
  rfl

/-- A pallet state over scenario X: fresh migration, auto limits armed,
signed migration allowed. -/
def stX : PalletState :=
  { migrationProcess := {}, autoLimits := some { size := 5, item := 5 },
    signedMigrationMaxLimits := some limitsX, store := storeX,
    caller := { free := 10, held := 0 }, events := [] }

theorem cmX : continue_migrate cfgX stX limitsX 100 {} =
    (Except.ok (continueOkPost 100 1),
     haltState (continueOkState stX t2X storeX) MigError.keyTooLong) :=
  @continue_migrate_ok_path cfgX stX limitsX 100 {} limitsX (some MigError.keyTooLong)
    t2X storeX (by rfl) (by decide) (by decide) (by rfl) mueX (by decide)

/-- A pallet state over scenario Y: fresh migration, signed migration allowed. -/
def stY : PalletState :=
  { migrationProcess := {}, autoLimits := none,
    signedMigrationMaxLimits := some limitsY, store := storeY,
    caller := { free := 10, held := 0 }, events := [] }

theorem cmY : continue_migrate cfgY stY limitsY 0 {} =
    (Except.ok defaultPost, continueSlashState stY 1 storeY) :=
  @continue_migrate_slash_path cfgY stY limitsY 0 {} limitsY none taskY storeY
    (by rfl) (by decide) (by decide) (by rfl) mueY (by decide)

/-- The byte length of a value found under a key, zero when none is stored. -/
def foundSize : Option Bytes → Nat
  | some v => v.length
  | none => 0

/-! ### The claims -/

/-- C1: `migrate_tick` advances at most one key in exactly one namespace,
chosen by the precedence table: `(ToStart, _)` runs `migrate_top`;
`(LastKey, LastKey)` runs `migrate_child`; `(LastKey k, ToStart)` runs
`migrate_child` when `k` starts with the child-root marker and `migrate_top`
otherwise; `(LastKey, Complete)` runs `migrate_top` once more and then resets
`progress_child` to `ToStart`; `(Complete, _)` changes nothing.  A successful
tick grows the dynamic item counters by at most one, in one namespace only. -/
theorem claim_C1_tick_dispatch (cfg : Config) (t : MigrationTask) (s : Store) :
    (t.progress_top = Progress.toStart →
      migrate_tick cfg t s = migrate_top cfg t s) ∧
    (∀ k c, t.progress_top = Progress.lastKey k → t.progress_child = Progress.lastKey c →
      migrate_tick cfg t s = migrate_child cfg t s) ∧
    (∀ k, t.progress_top = Progress.lastKey k → t.progress_child = Progress.toStart →
      migrate_tick cfg t s =
        if childStorageMarker.isPrefixOf k then migrate_child cfg t s
        else migrate_top cfg t s) ∧
    (∀ k, t.progress_top = Progress.lastKey k → t.progress_child = Progress.complete →
      migrate_tick cfg t s =
        match migrate_top cfg t s with
        | Except.error e => Except.error e
        | Except.ok (t', s') =>
          Except.ok ({ t' with progress_child := Progress.toStart }, s')) ∧
    (t.progress_top = Progress.complete → migrate_tick cfg t s = Except.ok (t, s)) ∧
    (∀ r, migrate_tick cfg t s = Except.ok r →
      r.1.dyn_top_items + r.1.dyn_child_items ≤ t.dyn_top_items + t.dyn_child_items + 1 ∧
      (r.1.dyn_top_items = t.dyn_top_items ∨ r.1.dyn_child_items = t.dyn_child_items)) := by
  refine ⟨fun h => tick_toStart s h,
    fun k c h1 h2 => tick_lastKey_lastKey s h1 h2, ?_,
    fun k h1 h2 => tick_lastKey_complete s h1 h2,
    fun h => tick_complete s h, ?_⟩
  · intro k h1 h2
    rw [tick_lastKey_toStart s h1 h2]
    cases hm : childStorageMarker.isPrefixOf k <;> simp [hm]
  · intro r htk
    obtain ⟨_, _, _, h4, h5⟩ := tick_counters htk
    exact ⟨h4, h5⟩

theorem claim_C1_witness :
    migrate_tick cfgX {} storeX = migrate_top cfgX {} storeX ∧
    migrate_tick cfgX t2X storeX =
      (if childStorageMarker.isPrefixOf [1] then migrate_child cfgX t2X storeX
       else migrate_top cfgX t2X storeX) :=
  ⟨(claim_C1_tick_dispatch cfgX {} storeX).1 rfl,
   (claim_C1_tick_dispatch cfgX t2X storeX).2.2.1 [1] rfl rfl⟩

/-- C2 (amended): with `item = 0` or `size = 0` the exhaustion call returns
immediately, processing nothing and changing nothing; and for `item = N > 0`
(a `u32`), starting — as every pallet call does — from a task whose dynamic
counters are zero, the call processes at most `N` keys: afterwards
`dyn_top_items + dyn_child_items ≤ N`. -/
theorem claim_C2_budget (cfg : Config) (limits : MigrationLimits) (t : MigrationTask)
    (s : Store) :
    (limits.item = 0 ∨ limits.size = 0 →
      migrate_until_exhaustion cfg limits t s = (none, t, s)) ∧
    (limits.item ≤ U32MAX → t.dyn_top_items = 0 → t.dyn_child_items = 0 →
      0 < limits.item →
      (migrate_until_exhaustion cfg limits t s).2.1.dyn_top_items +
        (migrate_until_exhaustion cfg limits t s).2.1.dyn_child_items ≤ limits.item) :=
  ⟨fun h => mue_zero h, fun h1 h2 h3 h4 => mue_dyn_bound h1 h2 h3 h4⟩

/-- C2 as stated is false: for a starting task whose dynamic counters are not
zero (`dyn_top_items = 2`), a call with `item = 1 > 0` ends with the total of
the dynamic counters above the budget. -/
theorem claim_C2_cex :
    ¬ ((migrate_until_exhaustion cfgX { size := 5, item := 1 }
          { dyn_top_items := 2 } { top := [], child := [] }).2.1.dyn_top_items +
       (migrate_until_exhaustion cfgX { size := 5, item := 1 }
          { dyn_top_items := 2 } { top := [], child := [] }).2.1.dyn_child_items ≤ 1) := by
  unfold migrate_until_exhaustion
  rw [if_neg (by decide)]
  rw [migrateLoop_exit (by rfl)]
  decide

theorem claim_C2_witness :
    migrate_until_exhaustion cfgX { size := 0, item := 7 } {} storeX =
      (none, {}, storeX) ∧
    (migrate_until_exhaustion cfgX { size := 10, item := 2 } {} storeX).2.1.dyn_top_items +
      (migrate_until_exhaustion cfgX { size := 10, item := 2 } {} storeX).2.1.dyn_child_items
      ≤ 2 :=
  ⟨(claim_C2_budget cfgX { size := 0, item := 7 } {} storeX).1 (Or.inr rfl),
   (claim_C2_budget cfgX { size := 10, item := 2 } {} storeX).2 (by decide) rfl rfl
     (by decide)⟩

/-- C5: a `continue_migrate` whose witness task differs from the persisted
`MigrationProcess` fails with `BadWitness` at the reduced wrong-witness
weight with the fee still charged, and the state is returned untouched (no
key migrated, no hold or slash, no event). -/
theorem claim_C5_bad_witness (cfg : Config) (st : PalletState) (limits : MigrationLimits)
    (rsu : Nat) (wt : MigrationTask) (max_limits : MigrationLimits)
    (h1 : st.signedMigrationMaxLimits = some max_limits)
    (h2 : limits.size ≤ max_limits.size ∧ limits.item ≤ max_limits.item)
    (h3 : canHold st.caller (calculate_deposit_for cfg limits.item) = true)
    (h4 : st.migrationProcess ≠ wt) :
    continue_migrate cfg st limits rsu wt =
      (Except.error ⟨DispatchErr.pallet MigError.badWitness,
        { actualWeight := some WeightExpr.continueMigrateWrongWitness, paysFee := true }⟩,
       st) := by
  unfold continue_migrate
  simp only [h1]
  rw [if_pos h2, if_pos h3, if_neg h4]

theorem claim_C5_witness :
    continue_migrate cfgX stX limitsX 100 t1X =
      (Except.error ⟨DispatchErr.pallet MigError.badWitness,
        { actualWeight := some WeightExpr.continueMigrateWrongWitness, paysFee := true }⟩,
       stX) :=
  claim_C5_bad_witness cfgX stX limitsX 100 t1X limitsX rfl (by decide) (by decide)
    (by decide)

/-- C8: `continue_migrate` checks its preconditions in order, rejecting
before any migration work with the state untouched:
`SignedMigrationNotAllowed` when no maximum is set; `MaxSignedLimits` when
the requested limits exceed it in `item` or `size` (whatever the funds or
witness); `NotEnoughFunds` when the caller cannot cover
`SignedDepositBase + SignedDepositPerItem * limits.item`, checked with a
hold-capability check and no hold placed. -/
theorem claim_C8_preconditions (cfg : Config) (st : PalletState)
    (limits : MigrationLimits) (rsu : Nat) (wt : MigrationTask) :
    (st.signedMigrationMaxLimits = none →
      continue_migrate cfg st limits rsu wt =
        (Except.error ⟨DispatchErr.pallet MigError.signedMigrationNotAllowed, defaultPost⟩,
         st)) ∧
    (∀ max_limits, st.signedMigrationMaxLimits = some max_limits →
      ¬(limits.size ≤ max_limits.size ∧ limits.item ≤ max_limits.item) →
      continue_migrate cfg st limits rsu wt =
        (Except.error ⟨DispatchErr.pallet MigError.maxSignedLimits, defaultPost⟩, st)) ∧
    (∀ max_limits, st.signedMigrationMaxLimits = some max_limits →
      limits.size ≤ max_limits.size ∧ limits.item ≤ max_limits.item →
      canHold st.caller
        (satAdd128 cfg.signedDepositBase (satMul128 cfg.signedDepositPerItem limits.item))
        = false →
      continue_migrate cfg st limits rsu wt =
        (Except.error ⟨DispatchErr.pallet MigError.notEnoughFunds, defaultPost⟩, st)) := by
  refine ⟨?_, ?_, ?_⟩
  · intro h
    unfold continue_migrate
    simp only [h]
  · intro max_limits h1 h2
    unfold continue_migrate
    simp only [h1]
    rw [if_neg h2]
  · intro max_limits h1 h2 h3
    unfold continue_migrate
    simp only [h1]
    rw [if_pos h2, if_neg (by rw [show canHold st.caller (calculate_deposit_for cfg limits.item) = false from h3]; exact Bool.false_ne_true)]

/-- `SignedMigrationMaxLimits` unset. -/
def stN : PalletState :=
  { migrationProcess := {}, autoLimits := none, signedMigrationMaxLimits := none,
    store := storeX, caller := { free := 10, held := 0 }, events := [] }

theorem claim_C8_witness :
    continue_migrate cfgX stN limitsX 100 {} =
      (Except.error ⟨DispatchErr.pallet MigError.signedMigrationNotAllowed, defaultPost⟩,
       stN) :=
  (claim_C8_preconditions cfgX stN limitsX 100 {}).1 rfl

/-- C10: when `migrate_until_exhaustion` returns `KeyTooLong` (or any error),
the cumulative counters `size`, `top_items`, `child_items` are exactly as
before the call: the dynamic-to-cumulative fold happens only on the `Ok`
path. -/
theorem claim_C10_cumulative (cfg : Config) (limits : MigrationLimits)
    (t : MigrationTask) (s : Store) (e : MigError) (t' : MigrationTask) (s' : Store)
    (h : migrate_until_exhaustion cfg limits t s = (some e, t', s')) :
    t'.size = t.size ∧ t'.top_items = t.top_items ∧ t'.child_items = t.child_items :=
  mue_error_cumulative h

theorem claim_C10_witness :
    t2X.size = ({} : MigrationTask).size ∧
    t2X.top_items = ({} : MigrationTask).top_items ∧
    t2X.child_items = ({} : MigrationTask).child_items :=
  claim_C10_cumulative cfgX limitsX {} storeX MigError.keyTooLong t2X storeX mueX

/-- A task standing at the start of a child walk under the default child
root, used to exercise the `migrate_child` over-long-key path. -/
def tC : MigrationTask :=
  { progress_top := Progress.lastKey childStorageMarker,
    progress_child := Progress.lastKey [] }

/-- A store whose only child key (under the default child root) is longer
than `cfgX.maxKeyLen = 2`. -/
def storeC : Store := { top := [], child := [([], [([3, 3, 3], [1])])] }

/-- C3 (amended): a found key longer than `MaxKeyLen` makes the per-namespace
step — `migrate_top` and `migrate_child` alike — fail with `KeyTooLong` (the
cursor is written only on success, so it is not updated); when this happens
during a non-slashed `continue_migrate`, the call emits `Halted{KeyTooLong}`,
clears `AutoLimits`, and persists the task as advanced by the earlier
successful ticks — its cumulative counters are unchanged, but its cursors may
have moved, so `MigrationProcess` equals the pre-call value only when the
failing tick was the first. -/
theorem claim_C3_key_too_long :
    (∀ (cfg : Config) (t : MigrationTask) (s : Store) (k k' : Bytes),
      t.progress_top = Progress.lastKey k → s.nextKey k = some k' →
      cfg.maxKeyLen < k'.length →
      migrate_top cfg t s = Except.error MigError.keyTooLong) ∧
    (∀ (cfg : Config) (t : MigrationTask) (s : Store) (lt lc k' : Bytes),
      t.progress_top = Progress.lastKey lt → t.progress_child = Progress.lastKey lc →
      s.childNextKey (transform_child_key_or_halt lt) lc = some k' →
      cfg.maxKeyLen < k'.length →
      migrate_child cfg t s = Except.error MigError.keyTooLong) ∧
    (∀ (cfg : Config) (st : PalletState) (limits : MigrationLimits) (rsu : Nat)
      (wt : MigrationTask) (max_limits : MigrationLimits) (e : MigError)
      (task : MigrationTask) (store : Store),
      st.signedMigrationMaxLimits = some max_limits →
      limits.size ≤ max_limits.size ∧ limits.item ≤ max_limits.item →
      canHold st.caller (calculate_deposit_for cfg limits.item) = true →
      st.migrationProcess = wt →
      migrate_until_exhaustion cfg limits st.migrationProcess st.store =
        (some e, task, store) →
      ¬ rsu < task.dyn_size →
      (continue_migrate cfg st limits rsu wt).2 =
        haltState (continueOkState st task store) e ∧
      (continue_migrate cfg st limits rsu wt).2.autoLimits = none ∧
      Event.halted e ∈ (continue_migrate cfg st limits rsu wt).2.events ∧
      (continue_migrate cfg st limits rsu wt).2.migrationProcess = task ∧
      task.size = st.migrationProcess.size ∧
      task.top_items = st.migrationProcess.top_items ∧
      task.child_items = st.migrationProcess.child_items) := by
  refine ⟨?_, ?_, ?_⟩
  · intro cfg t s k k' h1 h2 h3
    unfold migrate_top
    simp only [h1, h2]
    rw [if_pos h3]
  · intro cfg t s lt lc k' h1 h2 h3 h4
    unfold migrate_child
    simp only [h2, h1, h3]
    rw [if_pos h4]
  · intro cfg st limits rsu wt max_limits e task store h1 h2 h3 h4 h5 h6
    have hcm := continue_migrate_ok_path h1 h2 h3 h4 h5 h6
    obtain ⟨hs, ht, hc⟩ := mue_error_cumulative h5
    rw [hcm]
    refine ⟨rfl, rfl, ?_, rfl, hs, ht, hc⟩
    simp [haltState, continueOkState]

theorem claim_C3_cex :
    (continue_migrate cfgX stX limitsX 100 {}).2.migrationProcess ≠
      stX.migrationProcess ∧
    Event.halted MigError.keyTooLong ∈ (continue_migrate cfgX stX limitsX 100 {}).2.events := by
  rw [cmX]
  exact ⟨by decide, by decide⟩

theorem claim_C3_witness :
    migrate_child cfgX tC storeC = Except.error MigError.keyTooLong ∧
    ((continue_migrate cfgX stX limitsX 100 {}).2 =
      haltState (continueOkState stX t2X storeX) MigError.keyTooLong ∧
    (continue_migrate cfgX stX limitsX 100 {}).2.autoLimits = none ∧
    Event.halted MigError.keyTooLong ∈ (continue_migrate cfgX stX limitsX 100 {}).2.events ∧
    (continue_migrate cfgX stX limitsX 100 {}).2.migrationProcess = t2X ∧
    t2X.size = stX.migrationProcess.size ∧
    t2X.top_items = stX.migrationProcess.top_items ∧
    t2X.child_items = stX.migrationProcess.child_items) :=
  ⟨claim_C3_key_too_long.2.1 cfgX tC storeC childStorageMarker [] [3, 3, 3]
    (by rfl) (by rfl) (by decide) (by decide),
   claim_C3_key_too_long.2.2 cfgX stX limitsX 100 {} limitsX MigError.keyTooLong t2X storeX
    (by rfl) (by decide) (by decide) (by rfl) mueX (by decide)⟩

/-- C4 (amended): on a `continue_migrate` whose `real_size_upper` is strictly
below the bytes actually touched, the deposit is held and then burned
(`Slashed` is emitted and the caller's free balance drops by the deposit) and
the storage rewrites of the already-run ticks are kept — but the advanced
task is NOT persisted: the call returns early before the `put`, so
`MigrationProcess` keeps its pre-call value, and no `Migrated` event is
emitted. -/
theorem claim_C4_slash_on_underestimate (cfg : Config) (st : PalletState)
    (limits : MigrationLimits) (rsu : Nat) (wt : MigrationTask)
    (max_limits : MigrationLimits) (merr : Option MigError) (task : MigrationTask)
    (store : Store)
    (h1 : st.signedMigrationMaxLimits = some max_limits)
    (h2 : limits.size ≤ max_limits.size ∧ limits.item ≤ max_limits.item)
    (h3 : canHold st.caller (calculate_deposit_for cfg limits.item) = true)
    (h4 : st.migrationProcess = wt)
    (h5 : migrate_until_exhaustion cfg limits st.migrationProcess st.store =
      (merr, task, store))
    (h6 : rsu < task.dyn_size) :
    continue_migrate cfg st limits rsu wt =
      (Except.ok defaultPost,
       continueSlashState st (calculate_deposit_for cfg limits.item) store) ∧
    (continue_migrate cfg st limits rsu wt).2.migrationProcess = st.migrationProcess ∧
    (continue_migrate cfg st limits rsu wt).2.store = store ∧
    (continue_migrate cfg st limits rsu wt).2.caller.free =
      st.caller.free - calculate_deposit_for cfg limits.item ∧
    Event.slashed (calculate_deposit_for cfg limits.item) ∈
      (continue_migrate cfg st limits rsu wt).2.events := by
  have hcm := continue_migrate_slash_path h1 h2 h3 h4 h5 h6
  rw [hcm]
  refine ⟨rfl, rfl, rfl, rfl, ?_⟩
  simp [continueSlashState]

theorem claim_C4_cex :
    (continue_migrate cfgY stY limitsY 0 {}).2.migrationProcess = stY.migrationProcess ∧
    (migrate_until_exhaustion cfgY limitsY stY.migrationProcess stY.store).2.1 ≠
      stY.migrationProcess ∧
    Event.slashed 1 ∈ (continue_migrate cfgY stY limitsY 0 {}).2.events := by
  refine ⟨?_, ?_, ?_⟩
  · rw [cmY]; rfl
  · rw [show migrate_until_exhaustion cfgY limitsY stY.migrationProcess stY.store =
      (none, taskY, storeY) from mueY]
    decide
  · rw [cmY]; decide

theorem claim_C4_witness :
    continue_migrate cfgY stY limitsY 0 {} =
      (Except.ok defaultPost, continueSlashState stY (calculate_deposit_for cfgY 100) storeY) ∧
    (continue_migrate cfgY stY limitsY 0 {}).2.migrationProcess = stY.migrationProcess ∧
    (continue_migrate cfgY stY limitsY 0 {}).2.store = storeY ∧
    (continue_migrate cfgY stY limitsY 0 {}).2.caller.free =
      stY.caller.free - calculate_deposit_for cfgY 100 ∧
    Event.slashed (calculate_deposit_for cfgY 100) ∈
      (continue_migrate cfgY stY limitsY 0 {}).2.events :=
  claim_C4_slash_on_underestimate cfgY stY limitsY 0 {} limitsY none taskY storeY
    (by rfl) (by decide) (by decide) (by rfl) mueY (by decide)

/-- C6: on a block where `AutoLimits` is `Some`, the hook runs the exhaustion
with those limits, persists the updated task and the rewritten store, and
appends exactly one of the two progress events: `AutoMigrationFinished`
together with clearing `AutoLimits` when the task is now finished, and
`Migrated{top, child, compute = Auto}` otherwise, in which case `AutoLimits`
survives if no error occurred.  On an error (`KeyTooLong`) a `Halted{error}`
event precedes the progress event and `AutoLimits` is cleared. -/
theorem claim_C6_auto_hook (cfg : Config) (st : PalletState) (limits : MigrationLimits)
    (merr : Option MigError) (task : MigrationTask) (store : Store)
    (h1 : st.autoLimits = some limits)
    (h5 : migrate_until_exhaustion cfg limits st.migrationProcess st.store =
      (merr, task, store)) :
    (onInitializeHook cfg st).migrationProcess = task ∧
    (onInitializeHook cfg st).store = store ∧
    (task.finished = true →
      (onInitializeHook cfg st).autoLimits = none ∧
      (onInitializeHook cfg st).events =
        st.events ++ (match merr with | some e => [Event.halted e] | none => []) ++
          [Event.autoMigrationFinished]) ∧
    (task.finished = false →
      (onInitializeHook cfg st).events =
        st.events ++ (match merr with | some e => [Event.halted e] | none => []) ++
          [Event.migrated task.dyn_top_items task.dyn_child_items MigrationCompute.auto] ∧
      (merr = none → (onInitializeHook cfg st).autoLimits = some limits)) ∧
    (∀ e, merr = some e → (onInitializeHook cfg st).autoLimits = none) := by
  unfold onInitializeHook
  simp only [h1, h5]
  cases merr with
  | none =>
    cases hfin : task.finished with
    | true => simp [haltState, h1]
    | false => simp [haltState, h1]
  | some e0 =>
    cases hfin : task.finished with
    | true => simp [haltState, h1]
    | false => simp [haltState, h1]

/-- A pallet state over scenario X with only the automatic path armed. -/
def stZ : PalletState :=
  { migrationProcess := {}, autoLimits := some limitsX,
    signedMigrationMaxLimits := none, store := storeX,
    caller := { free := 0, held := 0 }, events := [] }

theorem claim_C6_witness :
    (onInitializeHook cfgX stZ).migrationProcess = t2X ∧
    (onInitializeHook cfgX stZ).store = storeX ∧
    (t2X.finished = true →
      (onInitializeHook cfgX stZ).autoLimits = none ∧
      (onInitializeHook cfgX stZ).events =
        stZ.events ++ [Event.halted MigError.keyTooLong] ++ [Event.autoMigrationFinished]) ∧
    (t2X.finished = false →
      (onInitializeHook cfgX stZ).events =
        stZ.events ++ [Event.halted MigError.keyTooLong] ++
          [Event.migrated t2X.dyn_top_items t2X.dyn_child_items MigrationCompute.auto] ∧
      (some MigError.keyTooLong = none → (onInitializeHook cfgX stZ).autoLimits = some limitsX)) ∧
    (∀ e, some MigError.keyTooLong = some e → (onInitializeHook cfgX stZ).autoLimits = none) :=
  claim_C6_auto_hook cfgX stZ limitsX (some MigError.keyTooLong) t2X storeX (by rfl) mueX

/-- C7: the custom key-list entry points have an asymmetric slash condition —
`migrate_custom_top` slashes exactly when the measured bytes strictly exceed
the claimed `witness_size` (under-claiming is fine), `migrate_custom_child`
slashes exactly when they differ from `total_size` in either direction; in
the non-slash case the fee is charged normally (`Pays::Yes`) and success is
reported with the measured weight; and neither entry point ever touches
`MigrationProcess`. -/
theorem claim_C7_custom (cfg : Config) (st : PalletState) :
    (∀ keys ws, canHold st.caller (calculate_deposit_for cfg keys.length) = true →
      ws < (customTopFold (0, st.store) keys).1 →
      migrate_custom_top cfg st keys ws =
        (Except.ok defaultPost,
         continueSlashState st (calculate_deposit_for cfg keys.length)
           (customTopFold (0, st.store) keys).2)) ∧
    (∀ keys ws, canHold st.caller (calculate_deposit_for cfg keys.length) = true →
      (customTopFold (0, st.store) keys).1 ≤ ws →
      migrate_custom_top cfg st keys ws =
        (Except.ok (customTopOkPost keys.length (customTopFold (0, st.store) keys).1),
         customTopOkState st keys.length (customTopFold (0, st.store) keys).2)) ∧
    (∀ root transformed keys ts,
      canHold st.caller (calculate_deposit_for cfg keys.length) = true →
      transform_child_key root = some transformed →
      (customChildFold transformed (0, st.store) keys).1 ≠ ts →
      migrate_custom_child cfg st root keys ts =
        (Except.ok customChildFailPost,
         continueSlashState st (calculate_deposit_for cfg keys.length)
           (customChildFold transformed (0, st.store) keys).2)) ∧
    (∀ root transformed keys ts,
      canHold st.caller (calculate_deposit_for cfg keys.length) = true →
      transform_child_key root = some transformed →
      (customChildFold transformed (0, st.store) keys).1 = ts →
      migrate_custom_child cfg st root keys ts =
        (Except.ok (customChildOkPost keys.length ts),
         customChildOkState st keys.length
           (customChildFold transformed (0, st.store) keys).2)) ∧
    (∀ keys ws, (migrate_custom_top cfg st keys ws).2.migrationProcess =
      st.migrationProcess) ∧
    (∀ root keys ts, (migrate_custom_child cfg st root keys ts).2.migrationProcess =
      st.migrationProcess) := by
  refine ⟨?_, ?_, ?_, ?_, ?_, ?_⟩
  · intro keys ws hch hlt
    unfold migrate_custom_top
    rw [if_pos hch, if_pos hlt]
    unfold slashState
    rw [if_pos (of_decide_eq_true hch)]
    simp [continueSlashState]
  · intro keys ws hch hle
    unfold migrate_custom_top
    rw [if_pos hch, if_neg (Nat.not_lt.mpr hle)]
  · intro root transformed keys ts hch htr hne
    unfold migrate_custom_child
    rw [if_pos hch]
    simp only [htr]
    rw [if_pos hne]
    unfold slashState
    rw [if_pos (of_decide_eq_true hch)]
    simp [continueSlashState]
  · intro root transformed keys ts hch htr heq
    unfold migrate_custom_child
    rw [if_pos hch]
    simp only [htr]
    rw [if_neg (not_not.mpr heq)]
  · intro keys ws
    unfold migrate_custom_top
    by_cases hch : canHold st.caller (calculate_deposit_for cfg keys.length) = true
    · rw [if_pos hch]
      by_cases hws : ws < (customTopFold (0, st.store) keys).1
      · rw [if_pos hws]
        unfold slashState
        by_cases hd : calculate_deposit_for cfg keys.length ≤ st.caller.free
        · rw [if_pos hd]
        · rw [if_neg hd]
      · rw [if_neg hws]; rfl
    · rw [if_neg hch]
  · intro root keys ts
    unfold migrate_custom_child
    by_cases hch : canHold st.caller (calculate_deposit_for cfg keys.length) = true
    · rw [if_pos hch]
      cases htr : transform_child_key root with
      | none => simp only [htr]
      | some transformed =>
        simp only [htr]
        by_cases hne : (customChildFold transformed (0, st.store) keys).1 ≠ ts
        · rw [if_pos hne]
          unfold slashState
          by_cases hd : calculate_deposit_for cfg keys.length ≤ st.caller.free
          · rw [if_pos hd]
          · rw [if_neg hd]
        · rw [if_neg hne]; rfl
    · rw [if_neg hch]

theorem claim_C7_witness :
    migrate_custom_top cfgY stY [[1]] 3 =
      (Except.ok (customTopOkPost 1 3), customTopOkState stY 1 storeY) :=
  (claim_C7_custom cfgY stY).2.1 [[1]] 3 (by decide) (by decide)

/-- C9: a tick from a `ToStart` cursor (top or child) visits the empty key
itself first: the cursor becomes `LastKey ""` and the dynamic item counter
grows by exactly one even when nothing is stored under the empty key; in
general every visited key bumps the item counter by one whether or not a
value exists, `dyn_size` grows exactly by the length of the value actually
found (zero when none), and a step that finds no next key (cursor to
`Complete`) leaves the counters untouched. -/
theorem claim_C9_empty_key_first (cfg : Config) (t : MigrationTask) (s : Store) :
    (∀ r, t.progress_top = Progress.toStart → migrate_top cfg t s = Except.ok r →
      r.1.progress_top = Progress.lastKey [] ∧
      r.1.dyn_top_items = satAdd t.dyn_top_items 1 ∧
      (t.dyn_top_items < U32MAX → r.1.dyn_top_items = t.dyn_top_items + 1) ∧
      r.1.dyn_size = satAdd t.dyn_size (foundSize (s.get [])) ∧
      (s.get [] = none → t.dyn_size ≤ U32MAX → r.1.dyn_size = t.dyn_size)) ∧
    (∀ r k0, t.progress_top = Progress.lastKey k0 → t.progress_child = Progress.toStart →
      migrate_child cfg t s = Except.ok r →
      r.1.progress_child = Progress.lastKey [] ∧
      r.1.dyn_child_items = satAdd t.dyn_child_items 1 ∧
      (t.dyn_child_items < U32MAX → r.1.dyn_child_items = t.dyn_child_items + 1) ∧
      r.1.dyn_size =
        satAdd t.dyn_size (foundSize (s.childGet (transform_child_key_or_halt k0) []))) ∧
    (∀ r k0 k, t.progress_top = Progress.lastKey k0 → migrate_top cfg t s = Except.ok r →
      r.1.progress_top = Progress.lastKey k →
      r.1.dyn_top_items = satAdd t.dyn_top_items 1 ∧
      r.1.dyn_size = satAdd t.dyn_size (foundSize (s.get k))) ∧
    (∀ r k0 c c', t.progress_top = Progress.lastKey k0 →
      t.progress_child = Progress.lastKey c → migrate_child cfg t s = Except.ok r →
      r.1.progress_child = Progress.lastKey c' →
      r.1.dyn_child_items = satAdd t.dyn_child_items 1 ∧
      r.1.dyn_size =
        satAdd t.dyn_size (foundSize (s.childGet (transform_child_key_or_halt k0) c'))) ∧
    (∀ r, migrate_top cfg t s = Except.ok r → r.1.progress_top = Progress.complete →
      r.1.dyn_top_items = t.dyn_top_items ∧ r.1.dyn_size = t.dyn_size) := by
  refine ⟨?_, ?_, ?_, ?_, ?_⟩
  · intro r hpt h
    unfold migrate_top at h
    simp only [hpt] at h
    injection h with h
    subst h
    unfold processTopKey
    cases hget : s.get [] with
    | some data =>
      simp only [hget]
      refine ⟨?_, ?_, ?_, ?_, ?_⟩ <;>
        first
        | trivial
        | (intro hx; simp only [satAdd]; omega)
        | (intro hn hsz; simp only [satAdd]; omega)
        | simp [foundSize]
        | (intro hn; cases hn)
    | none =>
      simp only [hget]
      refine ⟨?_, ?_, ?_, ?_, ?_⟩ <;>
        first
        | trivial
        | (intro hx; simp only [satAdd]; omega)
        | (intro hn hsz; simp only [satAdd]; omega)
        | simp [foundSize]
        | (intro hn; cases hn)
  · intro r k0 hpt hpc h
    unfold migrate_child at h
    simp only [hpc, hpt] at h
    injection h with h
    subst h
    unfold processChildKey
    cases hget : s.childGet (transform_child_key_or_halt k0) [] with
    | some data =>
      simp only [hget]
      refine ⟨?_, ?_, ?_, ?_⟩ <;>
        first
        | trivial
        | (intro hx; simp only [satAdd]; omega)
        | simp [foundSize]
    | none =>
      simp only [hget]
      refine ⟨?_, ?_, ?_, ?_⟩ <;>
        first
        | trivial
        | (intro hx; simp only [satAdd]; omega)
        | simp [foundSize]
  · intro r k0 k hpt h hr
    unfold migrate_top at h
    simp only [hpt] at h
    cases hnk : s.nextKey k0 with
    | none =>
      simp only [hnk] at h
      injection h with h
      subst h
      unfold processTopKey at hr
      simp at hr
    | some next =>
      simp only [hnk] at h
      by_cases hlen : cfg.maxKeyLen < next.length
      · rw [if_pos hlen] at h
        cases h
      · rw [if_neg hlen] at h
        injection h with h
        subst h
        unfold processTopKey at hr ⊢
        cases hget : s.get next with
        | some data =>
          simp only [hget] at hr ⊢
          have hk : next = k := by injection hr
          subst hk
          simp [foundSize, hget]
        | none =>
          simp only [hget] at hr ⊢
          have hk : next = k := by injection hr
          subst hk
          simp [foundSize, hget]
  · intro r k0 c c' hpt hpc h hr
    unfold migrate_child at h
    simp only [hpc, hpt] at h
    cases hnk : s.childNextKey (transform_child_key_or_halt k0) c with
    | none =>
      simp only [hnk] at h
      injection h with h
      subst h
      unfold processChildKey at hr
      simp at hr
    | some next =>
      simp only [hnk] at h
      by_cases hlen : cfg.maxKeyLen < next.length
      · rw [if_pos hlen] at h
        cases h
      · rw [if_neg hlen] at h
        injection h with h
        subst h
        unfold processChildKey at hr ⊢
        cases hget : s.childGet (transform_child_key_or_halt k0) next with
        | some data =>
          simp only [hget] at hr ⊢
          have hk : next = c' := by injection hr
          subst hk
          simp [foundSize, hget]
        | none =>
          simp only [hget] at hr ⊢
          have hk : next = c' := by injection hr
          subst hk
          simp [foundSize, hget]
  · intro r h hr
    unfold migrate_top at h
    cases hpt : t.progress_top with
    | toStart =>
      simp only [hpt] at h
      injection h with h
      subst h
      unfold processTopKey at hr
      cases hget : s.get [] with
      | some data => simp only [hget] at hr; simp at hr
      | none => simp only [hget] at hr; simp at hr
    | complete =>
      simp only [hpt] at h
      injection h with h
      subst h
      exact ⟨rfl, rfl⟩
    | lastKey k0 =>
      simp only [hpt] at h
      cases hnk : s.nextKey k0 with
      | none =>
        simp only [hnk] at h
        injection h with h
        subst h
        exact ⟨rfl, rfl⟩
      | some next =>
        simp only [hnk] at h
        by_cases hlen : cfg.maxKeyLen < next.length
        · rw [if_pos hlen] at h
          cases h
        · rw [if_neg hlen] at h
          injection h with h
          subst h
          unfold processTopKey at hr
          cases hget : s.get next with
          | some data => simp only [hget] at hr; simp at hr
          | none => simp only [hget] at hr; simp at hr

theorem claim_C9_witness :
    t1X.progress_top = Progress.lastKey [] ∧
    t1X.dyn_top_items = satAdd ({} : MigrationTask).dyn_top_items 1 ∧
    (({} : MigrationTask).dyn_top_items < U32MAX →
      t1X.dyn_top_items = ({} : MigrationTask).dyn_top_items + 1) ∧
    t1X.dyn_size = satAdd ({} : MigrationTask).dyn_size (foundSize (storeX.get [])) ∧
    (storeX.get [] = none → ({} : MigrationTask).dyn_size ≤ U32MAX →
      t1X.dyn_size = ({} : MigrationTask).dyn_size) :=
  (claim_C9_empty_key_first cfgX {} storeX).1 (t1X, storeX) rfl rfl

end StateTrieMigration
